import Mathlib

/-!
Verification development for the lazylab terminal dashboard.

The file shallowly embeds the parts of the program that the checked
properties are about:

* the retrying HTTP transport (`doWithRetry`, `isRetryableStatus` and the
  `get` helper of the GitLab client, file internal/gitlab/client.go),
* the project filter (`filterActiveProjects` and the list operations built
  on it),
* the bounded-concurrency enrichment pass (`fetchLastCommits` of
  internal/app/mainscreen.go), modelled as a small-step transition system
  over the semaphore discipline it uses,
* the Bubble Tea update loop of the main screen (the refresh-tick and
  refresh-result message handlers of internal/app/mainscreen.go), together
  with a small runtime that tracks the multiset of outstanding commands so
  that statements about armed timers can be made.

Go slices become lists, Go ints become Nat or Int (Int where the source
relies on signedness, e.g. selectedJobIdx), pointers become Option, and
fallible calls become Except or Option results.  Network nondeterminism is
a parameter: an attempt-indexed outcome function for the transport, and a
fetch-environment record for the UI runtime.
-/

namespace LazyLab

/-! ## Transport layer: constants from internal/config (API configuration block) -/

/-- config.MaxRetries. -/
def MaxRetries : Nat := 3

/-- config.RateLimitStatus. -/
def RateLimitStatus : Nat := 429

/-- config.ServerErrorMin. -/
def ServerErrorMin : Nat := 500

/-- The outcome the network produces for one HTTP attempt: either the Go
http.Client.Do call fails at transport level, or a response with a status
code and a body arrives. -/
inductive AttemptOutcome where
  | transportError (msg : String)
  | response (status : Nat) (body : String)
deriving DecidableEq, Repr

/-- The part of an http.Response the client reads: status code and body. -/
structure Response where
  status : Nat
  body : String
deriving DecidableEq, Repr

/-- isRetryableStatus from client.go:
`statusCode >= config.ServerErrorMin || statusCode == config.RateLimitStatus`. -/
def isRetryableStatus (statusCode : Nat) : Bool :=
  decide (ServerErrorMin ≤ statusCode) || statusCode == RateLimitStatus

/-- The two error values doWithRetry constructs with fmt.Errorf, keeping the
fields the format strings embed.  Both carry the 1-based attempt number and
the total attempt budget. -/
inductive RetryError where
  | requestFailed (attempt total : Nat) (msg : String)
  | apiError (status : Nat) (attempt total : Nat) (body : String)
deriving DecidableEq, Repr

/-- The message strings of the two fmt.Errorf calls in doWithRetry:
`request failed (attempt %d/%d): %w` and `API error %d (attempt %d/%d): %s`. -/
def RetryError.message : RetryError → String
  | .requestFailed a t m =>
      "request failed (attempt " ++ toString a ++ "/" ++ toString t ++ "): " ++ m
  | .apiError s a t b =>
      "API error " ++ toString s ++ " (attempt " ++ toString a ++ "/" ++ toString t ++ "): " ++ b

/-- The attempt number embedded in a doWithRetry error. -/
def RetryError.attempt : RetryError → Nat
  | .requestFailed a _ _ => a
  | .apiError _ a _ _ => a

/-- The attempt budget embedded in a doWithRetry error. -/
def RetryError.total : RetryError → Nat
  | .requestFailed _ t _ => t
  | .apiError _ _ t _ => t

/-- What one iteration of the doWithRetry loop does with the attempt
outcome, for 0-based attempt index `attempt`: a transport error becomes the
`request failed` error, a retryable status becomes the `API error` error
(the body is read and the response dropped), and any other status returns
the response to the caller. -/
def attemptResult (o : AttemptOutcome) (attempt : Nat) : Except RetryError Response :=
  match o with
  | .transportError m => .error (.requestFailed (attempt + 1) (MaxRetries + 1) m)
  | .response s b =>
      if isRetryableStatus s then .error (.apiError s (attempt + 1) (MaxRetries + 1) b)
      else .ok ⟨s, b⟩

/-- The `for attempt := 0; attempt <= config.MaxRetries; attempt++` loop of
doWithRetry.  `fuel` is the number of retries still allowed after the
current attempt; the loop keeps the error of the attempt it just made in
`lastErr`, and since every iteration either returns or overwrites
`lastErr`, the value returned after the loop is exactly the final
attempt's error, which is how the base case renders it here.  The first
component counts the attempts performed.  The backoff sleeps between
attempts (exponential from config.InitialBackoff, capped at
config.MaxBackoff) and the context-cancellation check do not influence the
returned value or the attempt count and are not modelled. -/
def doWithRetryLoop (outcomes : Nat → AttemptOutcome) (attempt fuel : Nat) :
    Nat × Except RetryError Response :=
  match attemptResult (outcomes attempt) attempt with
  | .ok r => (attempt + 1, .ok r)
  | .error e =>
      match fuel with
      | 0 => (attempt + 1, .error e)
      | fuel' + 1 => doWithRetryLoop outcomes (attempt + 1) fuel'

/-- doWithRetry from client.go, as a function of the attempt-indexed
network outcomes for the request. -/
def doWithRetry (outcomes : Nat → AttemptOutcome) : Nat × Except RetryError Response :=
  doWithRetryLoop outcomes 0 MaxRetries

/-- An attempt outcome on which doWithRetry keeps retrying: a transport
error, or a response whose status is retryable. -/
def retryableOutcome : AttemptOutcome → Bool
  | .transportError _ => true
  | .response s _ => isRetryableStatus s

/-! ## Substring containment (Go strings.Contains) -/

/-- Whether the character list `s` starts with `sub`. -/
def startsWithChars : List Char → List Char → Bool
  | _, [] => true
  | [], _ :: _ => false
  | a :: as, b :: bs => a == b && startsWithChars as bs

/-- Whether `sub` occurs contiguously inside `s`. -/
def containsChars : List Char → List Char → Bool
  | s, sub =>
    if startsWithChars s sub then true
    else
      match s with
      | [] => false
      | _ :: t => containsChars t sub

/-- Go strings.Contains(s, sub). -/
def goStringsContains (s sub : String) : Bool :=
  containsChars s.data sub.data

/-! ## Resource client: `get` and its error channel -/

/-- The error construction sites of Client.get in client.go.  In Go all
three are plain fmt.Errorf string errors; the constructors record which
site produced the error and what the format string embeds.
`retry` propagates a doWithRetry error, `apiError` is the
`API error %d: %s` error for a non-200 final status, and `decodeError` is
the `decoding response: %w` error. -/
inductive GetError where
  | retry (e : RetryError)
  | apiError (status : Nat) (body : String)
  | decodeError (body : String)
deriving DecidableEq, Repr

/-- Client.get: run doWithRetry, propagate its error; on a response with a
status other than http.StatusOK return the API error; otherwise decode the
body (`decode` stands for json.Decoder.Decode on the body, `none` meaning
a decode failure). -/
def get {α : Type} (outcomes : Nat → AttemptOutcome) (decode : String → Option α) :
    Except GetError α :=
  match (doWithRetry outcomes).2 with
  | .error e => .error (.retry e)
  | .ok resp =>
      if resp.status ≠ 200 then .error (.apiError resp.status resp.body)
      else
        match decode resp.body with
        | none => .error (.decodeError resp.body)
        | some v => .ok v

/-! ## The error taxonomy of the specification (claim C9) -/

/-- Modelled from the spec: the error taxonomy of section 7,
`NetworkUnavailable`, `ServerUnavailable` (5xx), `RateLimited` (429),
`Unauthorized`, `NotFound`, `Malformed`.  No such type exists in the
source; errors there are fmt.Errorf strings. -/
inductive SpecErrorClass where
  | networkUnavailable
  | serverUnavailable
  | rateLimited
  | unauthorized
  | notFound
  | malformed
deriving DecidableEq, Repr

/-- Modelled from the spec: the five classes the claim says every Resource
Client failure falls into.  NetworkUnavailable is not among them. -/
def claimErrorClasses : List SpecErrorClass :=
  [.notFound, .unauthorized, .rateLimited, .serverUnavailable, .malformed]

/-- Modelled from the spec: the class of an HTTP status per the section 7
taxonomy (404 NotFound, 401 Unauthorized, 429 RateLimited, 5xx
ServerUnavailable); other statuses are not classified by the spec. -/
def statusClass (s : Nat) : Option SpecErrorClass :=
  if s = 404 then some .notFound
  else if s = 401 then some .unauthorized
  else if s = 429 then some .rateLimited
  else if ServerErrorMin ≤ s then some .serverUnavailable
  else none

/-- The spec class recoverable from a get error value alone: a retry-layer
transport failure is NetworkUnavailable, a retry-layer status error is
RateLimited for 429 and ServerUnavailable otherwise (only retryable
statuses reach that constructor), a final-status error is classified by
its status, and a decode failure is Malformed. -/
def classOfGetError : GetError → Option SpecErrorClass
  | .retry (.requestFailed _ _ _) => some .networkUnavailable
  | .retry (.apiError s _ _ _) =>
      if s = RateLimitStatus then some .rateLimited else some .serverUnavailable
  | .apiError s _ => statusClass s
  | .decodeError _ => some .malformed

/-- The spec class of a run whose retry loop stops at a non-retryable
response: a non-200 status is classified by `statusClass`, a 200 body that
fails to decode is Malformed, a decoded body has no failure class.  The
transportError arm is unreachable (transport errors are always
retryable). -/
def runClassResolved {α : Type} (decode : String → Option α) :
    AttemptOutcome → Option SpecErrorClass
  | .transportError _ => none
  | .response s b =>
      if s ≠ 200 then statusClass s
      else
        match decode b with
        | none => some .malformed
        | some _ => none

/-- The spec class of a run whose retry budget is exhausted at `attempt`:
a retryable last outcome is NetworkUnavailable (transport) or
RateLimited/ServerUnavailable (status); a non-retryable one resolves as
usual. -/
def runClassTerminal {α : Type} (outcomes : Nat → AttemptOutcome) (decode : String → Option α)
    (attempt : Nat) : Option SpecErrorClass :=
  if retryableOutcome (outcomes attempt) then
    some (match outcomes attempt with
      | .transportError _ => .networkUnavailable
      | .response s _ => if s = RateLimitStatus then .rateLimited else .serverUnavailable)
  else runClassResolved decode (outcomes attempt)

/-- The spec class of a whole fetch run, computed from the raw attempt
outcomes and the decoder, independently of the error value `get` builds:
it follows the retry loop, classifies exhaustion by the last outcome, and
resolves non-retryable responses by status and decodability. -/
def runClassLoop {α : Type} (outcomes : Nat → AttemptOutcome) (decode : String → Option α) :
    Nat → Nat → Option SpecErrorClass
  | attempt, 0 => runClassTerminal outcomes decode attempt
  | attempt, fuel + 1 =>
      if retryableOutcome (outcomes attempt) then
        runClassLoop outcomes decode (attempt + 1) fuel
      else runClassResolved decode (outcomes attempt)

/-- The spec class of a run of `get`. -/
def runClass {α : Type} (outcomes : Nat → AttemptOutcome) (decode : String → Option α) :
    Option SpecErrorClass :=
  runClassLoop outcomes decode 0 MaxRetries

/-- The body of `get` with the retry loop started at a given attempt index and fuel;
`get` itself is `getFrom` at attempt 0 with fuel MaxRetries.  This is the
induction-friendly form of `get`. -/
def getFrom {α : Type} (outcomes : Nat → AttemptOutcome) (decode : String → Option α)
    (attempt fuel : Nat) : Except GetError α :=
  match (doWithRetryLoop outcomes attempt fuel).2 with
  | .error e => .error (.retry e)
  | .ok resp =>
      if resp.status ≠ 200 then .error (.apiError resp.status resp.body)
      else
        match decode resp.body with
        | none => .error (.decodeError resp.body)
        | some v => .ok v

/-! ## Projects and the deletion filter -/

/-- The fields of the gitlab.Project struct that filterActiveProjects
reads, plus the ID.  MarkedForDeletionAt is a `*string` in Go, hence an
Option. -/
structure Project where
  id : Nat
  name : String
  markedForDeletionAt : Option String
deriving DecidableEq, Repr

/-- The markedForDeletion test inside filterActiveProjects:
`p.MarkedForDeletionAt != nil && *p.MarkedForDeletionAt != ""`. -/
def markedForDeletion (p : Project) : Bool :=
  match p.markedForDeletionAt with
  | none => false
  | some s => !(s == "")

/-- filterActiveProjects from client.go: the loop appends `p` to the
result when it is not marked for deletion and its name does not contain
the substring checked with strings.Contains. -/
def filterActiveProjects (projects : List Project) : List Project :=
  projects.foldl
    (fun result p =>
      if !(markedForDeletion p) && !(goStringsContains (p.name) ("deletion_scheduled")) then
        result ++ [p]
      else result)
    []

/-- Client.ListGroupProjects: a get of the group projects followed by
filterActiveProjects on success. -/
def ListGroupProjects (outcomes : Nat → AttemptOutcome)
    (decode : String → Option (List Project)) : Except GetError (List Project) :=
  match get outcomes decode with
  | .error e => .error e
  | .ok projects => .ok (filterActiveProjects projects)

/-- Client.ListProjects: same shape as ListGroupProjects (different path). -/
def ListProjects (outcomes : Nat → AttemptOutcome)
    (decode : String → Option (List Project)) : Except GetError (List Project) :=
  match get outcomes decode with
  | .error e => .error e
  | .ok projects => .ok (filterActiveProjects projects)

/-- Client.SearchProjects: same shape as ListGroupProjects (different path). -/
def SearchProjects (outcomes : Nat → AttemptOutcome)
    (decode : String → Option (List Project)) : Except GetError (List Project) :=
  match get outcomes decode with
  | .error e => .error e
  | .ok projects => .ok (filterActiveProjects projects)

/-- The keep-condition of claim C10, written from its words: the project
is kept exactly when MarkedForDeletionAt is nil or empty and the name does
not contain the deletion marker substring. -/
def claimActiveProject (p : Project) : Bool :=
  (p.markedForDeletionAt == none || p.markedForDeletionAt == some "") &&
    !(goStringsContains (p.name) ("deletion_scheduled"))

/-! ## Enrichment fan-out (MainScreen.fetchLastCommits)

fetchLastCommits spawns one goroutine per tree entry; each goroutine
acquires a slot of the buffered channel `sem` (capacity 10), runs
GetLastCommitForPath, writes the commit into its entry when the call
succeeded with a non-nil commit, and releases the slot; wg.Wait blocks
until every goroutine is done.  The transition system below models the
phases of the goroutines: `spawned` (before `sem <- struct{}{}`),
`inFlight` (slot held, request outstanding), `done` (slot released).
`results i` is the combined per-item outcome
`err == nil && commit != nil`, as an Option Commit. -/

/-- The fields of gitlab.Commit the UI shows (trimmed). -/
structure Commit where
  shortID : String
  title : String
deriving DecidableEq, Repr

/-- The fields of gitlab.TreeEntry that fetchLastCommits touches. -/
structure TreeEntry where
  name : String
  path : String
  lastCommit : Option Commit
deriving DecidableEq, Repr

/-- Phase of one enrichment goroutine. -/
inductive TaskPhase where
  | spawned
  | inFlight
  | done
deriving DecidableEq, Repr

/-- State of one enrichment pass: the semaphore capacity (10 in the
source), one phase per entry, and the entries slice being updated in
place. -/
structure EnrichState where
  cap : Nat
  phases : List TaskPhase
  entries : List TreeEntry
deriving DecidableEq, Repr

/-- The semaphore capacity hard-coded in fetchLastCommits:
`sem := make(chan struct{}, 10)`. -/
def fetchLastCommitsCap : Nat := 10

/-- Number of enrichment operations currently in flight. -/
def inFlightCount (phases : List TaskPhase) : Nat :=
  phases.countP (fun ph => decide (ph = .inFlight))

/-- Whether every goroutine has finished, i.e. wg.Wait would return. -/
def allDone (phases : List TaskPhase) : Bool :=
  phases.all (fun ph => decide (ph = .done))

/-- Writing the fetched commit into entry `i`
(`entries[idx].LastCommit = commit`). -/
def setLastCommit (entries : List TreeEntry) (i : Nat) (c : Commit) : List TreeEntry :=
  match entries.get? i with
  | none => entries
  | some e => entries.set i { e with lastCommit := some c }

/-- What finishing task `i` does to the entries: on success the commit is
stored, on failure (`err != nil || commit == nil`) the entry is left
untouched. -/
def finishEntry (results : Nat → Option Commit) (entries : List TreeEntry) (i : Nat) :
    List TreeEntry :=
  match results i with
  | some c => setLastCommit entries i c
  | none => entries

/-- The initial state of fetchLastCommits on `entries` with semaphore
capacity `cap`: every goroutine spawned, none in flight. -/
def initEnrichState (cap : Nat) (entries : List TreeEntry) : EnrichState :=
  ⟨cap, entries.map (fun _ => .spawned), entries⟩

/-- One scheduler step of the enrichment pass.  `acquire` is the channel
send `sem <- struct{}{}`: it can fire for any spawned task whenever fewer
than `cap` slots are held — in particular as soon as any single task
finishes, independent of the other tasks, which is what makes the window
slide instead of proceeding in batches.  `finish` is the completion of the
in-flight request followed by the deferred release of the slot. -/
inductive EnrichStep (results : Nat → Option Commit) : EnrichState → EnrichState → Prop where
  | acquire (s : EnrichState) (i : Nat)
      (hph : s.phases.get? i = some .spawned)
      (hcap : inFlightCount s.phases < s.cap) :
      EnrichStep results s { s with phases := s.phases.set i .inFlight }
  | finish (s : EnrichState) (i : Nat)
      (hph : s.phases.get? i = some .inFlight) :
      EnrichStep results s
        { s with phases := s.phases.set i .done,
                 entries := finishEntry results s.entries i }

/-- States reachable during one enrichment pass. -/
inductive EnrichReachable (results : Nat → Option Commit) (init : EnrichState) :
    EnrichState → Prop where
  | refl : EnrichReachable results init init
  | step {b c : EnrichState} : EnrichReachable results init b →
      EnrichStep results b c → EnrichReachable results init c

/-- The entry the pass yields at index `i` once that task resolved:
enriched on success, the base entry unmodified on failure. -/
def entryAfter (results : Nat → Option Commit) (i : Nat) (e : TreeEntry) : TreeEntry :=
  match results i with
  | some c => { e with lastCommit := some c }
  | none => e

/-- The fully resolved entry list: every base item present, in order,
failed ones unmodified. -/
def enrichAll (results : Nat → Option Commit) (entries : List TreeEntry) : List TreeEntry :=
  (List.range entries.length).map
    (fun i => ((entries.get? i).map (entryAfter results i)).getD ⟨"", "", none⟩)

/-- Termination measure: spawned tasks weigh 2, in-flight tasks 1. -/
def taskWeight : TaskPhase → Nat
  | .spawned => 2
  | .inFlight => 1
  | .done => 0

/-- Total measure of an enrichment state; every step strictly decreases
it, so every run of the pass terminates. -/
def enrichMeasure (s : EnrichState) : Nat :=
  (s.phases.map taskWeight).sum

/-! ## The main screen model (internal/app/mainscreen.go)

The structure below keeps the MainScreen fields that the modelled message
and key handlers read or write.  The job-log viewport is the Bubble Tea
viewport widget (an external library); its operations are modelled
coarsely: SetContent stores the content, GotoBottom moves the offset to
the maximum, SetYOffset clamps into range, and ScrollPercent() >= 0.99 is
modelled as being at the maximum offset. -/

/-- The content tabs of the main screen. -/
inductive ContentTab where
  | files
  | mrs
  | pipelines
  | releases
deriving DecidableEq, Repr

/-- The fields of gitlab.Pipeline the merge logic uses (trimmed). -/
structure Pipeline where
  id : Nat
  status : String
deriving DecidableEq, Repr

/-- The fields of gitlab.Job the merge logic uses (trimmed). -/
structure Job where
  id : Nat
  name : String
  status : String
deriving DecidableEq, Repr

/-- Coarse model of the Bubble Tea viewport widget. -/
structure Viewport where
  content : String
  yOffset : Nat
  height : Nat
deriving DecidableEq, Repr

/-- Go strings.Count(s, the newline string). -/
def countNewlines (s : String) : Nat :=
  s.data.countP (fun c => c == '\n')

/-- The largest y offset of the viewport (total lines minus height,
truncated at zero). -/
def Viewport.maxYOffset (v : Viewport) : Nat :=
  countNewlines v.content + 1 - v.height

/-- Model of ScrollPercent() >= 0.99: the offset is at its maximum. -/
def Viewport.atBottom (v : Viewport) : Bool :=
  decide (v.maxYOffset ≤ v.yOffset)

/-- viewport SetContent. -/
def Viewport.setContent (v : Viewport) (c : String) : Viewport :=
  { v with content := c }

/-- viewport GotoBottom. -/
def Viewport.gotoBottom (v : Viewport) : Viewport :=
  { v with yOffset := v.maxYOffset }

/-- viewport SetYOffset (clamped into range, as the widget does). -/
def Viewport.setYOffset (v : Viewport) (n : Nat) : Viewport :=
  { v with yOffset := min n v.maxYOffset }

/-- The log cleanup in the jobLogRefreshedMsg handler: tabs become four
spaces and carriage returns are removed (strings.ReplaceAll twice). -/
def cleanJobLog (s : String) : String :=
  ⟨s.data.flatMap (fun c =>
    if c = '\t' then [' ', ' ', ' ', ' ']
    else if c = '\r' then []
    else [c])⟩

/-- The MainScreen fields touched by the modelled handlers.
selectedProject is the selected project pointer, kept as its ID;
selectedJobIdx is an Int because the source checks it for negativity. -/
structure MainScreen where
  contentTab : ContentTab
  selectedProject : Option Nat
  isDemo : Bool
  loading : Bool
  loadingMsg : String
  lastError : String
  statusMsg : String
  fileContent : String
  pipelines : List Pipeline
  selectedContent : Nat
  fileScrollOffset : Nat
  pipelineJobs : List (Nat × List Job)
  jobs : List Job
  selectedJobIdx : Int
  currentPipelineID : Nat
  jobLog : String
  jobLogReady : Bool
  jobLogCursor : Nat
  jobLogHScroll : Nat
  jobLogFocused : Bool
  visualLineMode : Bool
  showJobLogPopup : Bool
  jobLogViewport : Viewport
deriving DecidableEq, Repr

/-- The commands (tea.Cmd closures) the modelled handlers return.  The two
tick commands are tea.Tick timers; the fetch commands are the asynchronous
client calls, tagged with the arguments their closures capture. -/
inductive Cmd where
  | pipelineTick
  | jobLogTick
  | fetchPipelines (projectID : Nat)
  | fetchPipelinesRefresh (projectID : Nat)
  | fetchPipelineJobs (projectID pipelineID : Nat)
  | fetchPipelineJobsForList (projectID pipelineID : Nat)
  | fetchJobLog (projectID jobID : Nat)
  | fetchJobsRefresh (projectID pipelineID : Nat)
  | fetchJobLogRefresh (projectID jobID : Nat)
deriving DecidableEq, Repr

/-- Whether a command is the pipeline-refresh timer. -/
def isPipelineTickCmd : Cmd → Bool
  | .pipelineTick => true
  | _ => false

/-- Whether a command is the job-log-refresh timer. -/
def isJobLogTickCmd : Cmd → Bool
  | .jobLogTick => true
  | _ => false

/-- The tea.Msg values the modelled handlers consume.  jobsRefreshed
carries an Option because the handler checks msg.jobs against nil. -/
inductive Msg where
  | errorMsg (err : String)
  | pipelinesLoaded (pipelines : List Pipeline)
  | pipelinesRefreshed (pipelines : List Pipeline)
  | pipelineTick
  | pipelineJobsLoaded (pipelineID : Nat) (jobs : List Job)
  | jobsLoaded (jobs : List Job)
  | jobLogLoaded (log : String)
  | jobLogTick
  | jobsRefreshed (jobs : Option (List Job))
  | jobLogRefreshed (log : String)
deriving DecidableEq, Repr

/-- MainScreen.loadPipelines: nil command when no project is selected or
in demo mode, otherwise the pipelines fetch. -/
def loadPipelines (m : MainScreen) : Option Cmd :=
  match m.selectedProject, m.isDemo with
  | some pid, false => some (.fetchPipelines pid)
  | _, _ => none

/-- MainScreen.refreshPipelines: same guard; on error the closure returns
a nil message, which the fetch semantics below reflect. -/
def refreshPipelines (m : MainScreen) : Option Cmd :=
  match m.selectedProject, m.isDemo with
  | some pid, false => some (.fetchPipelinesRefresh pid)
  | _, _ => none

/-- MainScreen.loadPipelineJobs. -/
def loadPipelineJobs (m : MainScreen) (pipelineID : Nat) : Option Cmd :=
  match m.selectedProject, m.isDemo with
  | some pid, false => some (.fetchPipelineJobs pid pipelineID)
  | _, _ => none

/-- MainScreen.loadPipelineJobsForList. -/
def loadPipelineJobsForList (m : MainScreen) (pipelineID : Nat) : Option Cmd :=
  match m.selectedProject, m.isDemo with
  | some pid, false => some (.fetchPipelineJobsForList pid pipelineID)
  | _, _ => none

/-- MainScreen.loadJobLog. -/
def loadJobLog (m : MainScreen) (jobID : Nat) : Option Cmd :=
  match m.selectedProject, m.isDemo with
  | some pid, false => some (.fetchJobLog pid jobID)
  | _, _ => none

/-- MainScreen.refreshJobs: additionally guarded by currentPipelineID
being zero. -/
def refreshJobs (m : MainScreen) : Option Cmd :=
  match m.selectedProject, m.isDemo with
  | some pid, false =>
      if m.currentPipelineID = 0 then none
      else some (.fetchJobsRefresh pid m.currentPipelineID)
  | _, _ => none

/-- MainScreen.refreshJobLog: guarded by the selected job index being in
range; the closure captures the job at that index. -/
def refreshJobLog (m : MainScreen) : Option Cmd :=
  match m.selectedProject, m.isDemo with
  | some pid, false =>
      if 0 ≤ m.selectedJobIdx ∧ m.selectedJobIdx < (m.jobs.length : Int) then
        match m.jobs.get? m.selectedJobIdx.toNat with
        | some job => some (.fetchJobLogRefresh pid job.id)
        | none => none
      else none
  | _, _ => none

/-- First index whose element satisfies `p` (the `for i, x := range` with
break pattern). -/
def findIdxBy {α : Type} (p : α → Bool) : List α → Option Nat
  | [] => none
  | a :: as => if p a then some 0 else (findIdxBy p as).map (· + 1)

/-- The selected pipeline ID snapshot taken at the top of the
pipelinesRefreshedMsg handler: the ID at the selected index when in
range, otherwise the zero sentinel. -/
def selectedPipelineID (m : MainScreen) : Nat :=
  if m.selectedContent < m.pipelines.length then
    (((m.pipelines.get? m.selectedContent).map Pipeline.id).getD 0)
  else 0

/-- The selected job ID snapshot taken in the jobsRefreshedMsg handler:
the ID at the selected index when that index is non-negative and in
range, otherwise the zero sentinel. -/
def selectedJobID (m : MainScreen) : Nat :=
  if 0 ≤ m.selectedJobIdx ∧ m.selectedJobIdx < (m.jobs.length : Int) then
    (((m.jobs.get? m.selectedJobIdx.toNat).map Job.id).getD 0)
  else 0

/-- Map update for the pipelineJobs map (`m.pipelineJobs[pid] = jobs`). -/
def setPipelineJobs (l : List (Nat × List Job)) (pid : Nat) (jobs : List Job) :
    List (Nat × List Job) :=
  l.filter (fun kv => decide (kv.1 ≠ pid)) ++ [(pid, jobs)]

/-- MainScreen.Update, restricted to the modelled messages.  Each case is
a direct transcription of the corresponding `case` of the Go switch; the
returned list collects the non-nil commands handed to tea.Batch, in
order. -/
def update (m : MainScreen) : Msg → MainScreen × List Cmd
  | .errorMsg err =>
      ({ m with loading := false, lastError := err }, [])
  | .pipelinesLoaded ps =>
      let m' := { m with pipelines := ps, selectedContent := 0, fileScrollOffset := 0,
                         pipelineJobs := [], loading := false, lastError := "" }
      (m', (ps.filterMap (fun p => loadPipelineJobsForList m' (p.id))) ++ [Cmd.pipelineTick])
  | .pipelinesRefreshed ps =>
      let selID := selectedPipelineID m
      let sel1 :=
        if selID ≠ 0 then
          match findIdxBy (fun p => p.id == selID) ps with
          | some i => i
          | none => m.selectedContent
        else m.selectedContent
      let sel2 := if ps.length ≤ sel1 ∧ 0 < ps.length then ps.length - 1 else sel1
      let m' := { m with pipelines := ps, selectedContent := sel2 }
      (m', (ps.filterMap (fun p => loadPipelineJobsForList m' (p.id))) ++ [Cmd.pipelineTick])
  | .pipelineTick =>
      if m.contentTab = .pipelines ∧ m.selectedProject.isSome ∧ m.loading = false then
        (m, (refreshPipelines m).toList)
      else if m.selectedProject.isSome then (m, [Cmd.pipelineTick])
      else (m, [])
  | .pipelineJobsLoaded pid js =>
      ({ m with pipelineJobs := setPipelineJobs m.pipelineJobs pid js }, [])
  | .jobsLoaded js =>
      let m' := { m with jobs := js, selectedJobIdx := 0, jobLog := "", jobLogReady := false,
                         loading := false, lastError := "" }
      match js with
      | [] => (m', [])
      | j :: _ =>
          let m'' := { m' with loading := true, loadingMsg := "Loading job log..." }
          (m'', (loadJobLog m'' (j.id)).toList)
  | .jobLogLoaded log =>
      ({ m with jobLog := log, jobLogReady := false, loading := false, lastError := "",
                jobLogCursor := countNewlines log }, [Cmd.jobLogTick])
  | .jobLogTick =>
      if m.showJobLogPopup then
        (m, (refreshJobs m).toList ++ (refreshJobLog m).toList ++ [Cmd.jobLogTick])
      else (m, [])
  | .jobsRefreshed jobsOpt =>
      match jobsOpt with
      | some js =>
          if m.showJobLogPopup then
            let selID := selectedJobID m
            let sel' : Int :=
              if selID ≠ 0 then
                match findIdxBy (fun j => j.id == selID) js with
                | some i => (i : Int)
                | none => m.selectedJobIdx
              else m.selectedJobIdx
            ({ m with jobs := js, selectedJobIdx := sel' }, [])
          else (m, [])
      | none => (m, [])
  | .jobLogRefreshed log =>
      if log ≠ "" ∧ m.showJobLogPopup then
        let currentLine := m.jobLogViewport.yOffset
        let wasAtBottom := m.jobLogViewport.atBottom
        let vp1 := m.jobLogViewport.setContent (cleanJobLog log)
        let vp2 := if !m.jobLogFocused || wasAtBottom then vp1.gotoBottom
                   else vp1.setYOffset currentLine
        ({ m with jobLog := log, jobLogViewport := vp2 }, [])
      else (m, [])

/-! ## Key events and the command runtime

Only the key handlers that drive the modelled refresh lifecycles are
embedded: switching the content tab (switchTab, pipelines branch in
full, the other branches load lists that are outside the modelled state),
pressing enter on a pipeline to open the job-log popup, and pressing j in
the popup while the job list panel has focus.  The runtime pairs the
screen with the list of outstanding commands (armed timers and in-flight
fetches); delivering a command consumes it, produces its message under a
fetch environment, and appends the commands the handler returns, which is
how the Bubble Tea program loop behaves. -/

/-- The modelled key events. -/
inductive KeyEvent where
  | openJobLog
  | jobNext
  | switchTab (tab : ContentTab)
deriving DecidableEq, Repr

/-- MainScreen.switchTab: set the tab, reset the content selection, clear
the file content; when a project is selected and not in demo mode, an
empty pipelines list triggers a load on entering the pipelines tab.  The
files, MRs and releases branches check lists outside the modelled state
and are trimmed to the no-load case. -/
def switchTab (m : MainScreen) (tab : ContentTab) : MainScreen × List Cmd :=
  let m1 := { m with contentTab := tab, selectedContent := 0, fileContent := "" }
  if m1.selectedProject = none ∨ m1.isDemo then (m1, [])
  else
    match tab with
    | .pipelines =>
        if m1.pipelines.length = 0 then
          ({ m1 with loading := true, loadingMsg := "Loading pipelines..." },
           (loadPipelines m1).toList)
        else (m1, [])
    | _ => (m1, [])

/-- The enter-on-a-pipeline branch of handleContentNav: open the job-log
popup for the selected pipeline and dispatch the jobs load. -/
def handleOpenJobLog (m : MainScreen) : MainScreen × List Cmd :=
  if h : m.contentTab = .pipelines ∧ m.selectedContent < m.pipelines.length then
    if m.isDemo then (m, [])
    else
      let pipeline := m.pipelines.get ⟨m.selectedContent, h.2⟩
      let m' := { m with jobs := [], jobLog := "", showJobLogPopup := true,
                         jobLogFocused := false, jobLogCursor := 0, jobLogHScroll := 0,
                         currentPipelineID := pipeline.id, loading := true,
                         loadingMsg := "Loading jobs..." }
      (m', (loadPipelineJobs m' (pipeline.id)).toList)
  else (m, [])

/-- The j key inside the job-log popup with the job list panel focused:
advance the selection and dispatch the log load for the newly selected
job.  The branch taken when the log panel has focus scrolls the viewport
and is outside the modelled fragment. -/
def handleJobNext (m : MainScreen) : MainScreen × List Cmd :=
  if m.jobLogFocused then (m, [])
  else if m.selectedJobIdx < (m.jobs.length : Int) - 1 then
    let m1 := { m with selectedJobIdx := m.selectedJobIdx + 1 }
    if m1.isDemo then (m1, [])
    else
      let m2 := { m1 with jobLog := "", jobLogReady := false, jobLogHScroll := 0,
                          visualLineMode := false, loading := true,
                          loadingMsg := "Loading job log...", statusMsg := "" }
      match m2.jobs.get? m2.selectedJobIdx.toNat with
      | some job => (m2, (loadJobLog m2 (job.id)).toList)
      | none => (m2, [])
  else (m, [])

/-- Key dispatch, mirroring the popup-first routing of handleKey:
openJobLog and switchTab belong to the content navigation (only reachable
when the popup is closed), jobNext to the popup handler. -/
def handleKeyEvent (m : MainScreen) : KeyEvent → MainScreen × List Cmd
  | .openJobLog => if m.showJobLogPopup then (m, []) else handleOpenJobLog m
  | .jobNext => if m.showJobLogPopup then handleJobNext m else (m, [])
  | .switchTab tab => if m.showJobLogPopup then (m, []) else switchTab m tab

/-- The network outcomes a delivered fetch command observes; `none` means
the client call returned an error. -/
structure FetchEnv where
  pipelinesResult : Option (List Pipeline)
  pipelineJobsResult : Option (List Job)
  jobLogResult : Option String
deriving Repr

/-- The message a command produces when it completes.  Tick commands fire
their tick message.  Load commands turn errors into errMsg
(loadPipelineJobsForList instead reports the nil jobs slice).  The
refresh closures return a nil message on error — `none` here — which is
exactly how failed background refreshes vanish. -/
def cmdMsg (env : FetchEnv) : Cmd → Option Msg
  | .pipelineTick => some .pipelineTick
  | .jobLogTick => some .jobLogTick
  | .fetchPipelines _ =>
      match env.pipelinesResult with
      | some ps => some (.pipelinesLoaded ps)
      | none => some (.errorMsg "fetch failed")
  | .fetchPipelinesRefresh _ => env.pipelinesResult.map .pipelinesRefreshed
  | .fetchPipelineJobs _ _ =>
      match env.pipelineJobsResult with
      | some js => some (.jobsLoaded js)
      | none => some (.errorMsg "fetch failed")
  | .fetchPipelineJobsForList _ pid =>
      match env.pipelineJobsResult with
      | some js => some (.pipelineJobsLoaded pid js)
      | none => some (.pipelineJobsLoaded pid [])
  | .fetchJobLog _ _ =>
      match env.jobLogResult with
      | some l => some (.jobLogLoaded l)
      | none => some (.errorMsg "fetch failed")
  | .fetchJobsRefresh _ _ => env.pipelineJobsResult.map (fun js => .jobsRefreshed (some js))
  | .fetchJobLogRefresh _ _ => env.jobLogResult.map .jobLogRefreshed

/-- Running the produced message (if any) through Update. -/
def applyMsg (m : MainScreen) : Option Msg → MainScreen × List Cmd
  | none => (m, [])
  | some msg => update m msg

/-- A runtime configuration: the screen plus the outstanding commands. -/
structure Config where
  screen : MainScreen
  pending : List Cmd
deriving DecidableEq, Repr

/-- The configuration after delivering command `c` (taken out of the
pending list between `pre` and `post`) under environment `env`. -/
def rtDeliver (m : MainScreen) (env : FetchEnv) (c : Cmd) (pre post : List Cmd) : Config :=
  ⟨(applyMsg m (cmdMsg env c)).1, (pre ++ post) ++ (applyMsg m (cmdMsg env c)).2⟩

/-- The configuration after a key event. -/
def rtKey (m : MainScreen) (pending : List Cmd) (k : KeyEvent) : Config :=
  ⟨(handleKeyEvent m k).1, pending ++ (handleKeyEvent m k).2⟩

/-- One runtime step: deliver an outstanding command, or process a key. -/
inductive RtStep : Config → Config → Prop where
  | deliver (m : MainScreen) (pre post : List Cmd) (c : Cmd) (env : FetchEnv) :
      RtStep ⟨m, pre ++ c :: post⟩ (rtDeliver m env c pre post)
  | key (m : MainScreen) (pending : List Cmd) (k : KeyEvent) :
      RtStep ⟨m, pending⟩ (rtKey m pending k)

/-- Configurations reachable from `init`. -/
inductive RtReachable (init : Config) : Config → Prop where
  | refl : RtReachable init init
  | step {b c : Config} : RtReachable init b → RtStep b c → RtReachable init c

/-! ## Concrete states and runs used by the counterexamples and witnesses -/

/-- A screen showing a selected project on the files tab, nothing loaded. -/
def baseScreen : MainScreen :=
  { contentTab := .files, selectedProject := some 1, isDemo := false,
    loading := false, loadingMsg := "", lastError := "", statusMsg := "",
    fileContent := "", pipelines := [], selectedContent := 0, fileScrollOffset := 0,
    pipelineJobs := [], jobs := [], selectedJobIdx := 0, currentPipelineID := 0,
    jobLog := "", jobLogReady := false, jobLogCursor := 0, jobLogHScroll := 0,
    jobLogFocused := false, visualLineMode := false, showJobLogPopup := false,
    jobLogViewport := ⟨"", 0, 20⟩ }

/-- An environment where every fetch succeeds. -/
def envOk : FetchEnv :=
  ⟨some [⟨7, "success"⟩], some [⟨11, "build", "running"⟩, ⟨12, "test", "pending"⟩],
   some "line1"⟩

/-- An environment where every fetch fails. -/
def envFail : FetchEnv := ⟨none, none, none⟩

/-- C4 run: switch to the pipelines tab (the pipelines load is
dispatched). -/
def c4cfg1 : Config := rtKey baseScreen [] (.switchTab .pipelines)

/-- C4 run: the load succeeds; the loaded handler arms the first tick. -/
def c4cfg2 : Config := rtDeliver (c4cfg1.screen) envOk (.fetchPipelines 1) [] []

/-- C4 run: the per-pipeline jobs load resolves. -/
def c4cfg3 : Config :=
  rtDeliver (c4cfg2.screen) envOk (.fetchPipelineJobsForList 1 7) [] [.pipelineTick]

/-- C4 run: the tick fires on the pipelines tab and dispatches the
refresh fetch; no further timer is armed at this point. -/
def c4cfg4 : Config := rtDeliver (c4cfg3.screen) envFail .pipelineTick [] []

/-- C4 run: the refresh fetch fails, producing no message at all; the
pending list is now empty, so no later tick can ever fire. -/
def c4final : Config := rtDeliver (c4cfg4.screen) envFail (.fetchPipelinesRefresh 1) [] []

/-- A screen viewing the pipelines tab with one pipeline listed. -/
def pipelinesViewScreen : MainScreen :=
  { baseScreen with contentTab := .pipelines, pipelines := [⟨7, "success"⟩] }

/-- C5 run: enter opens the job-log popup and dispatches the jobs load. -/
def c5cfg1 : Config := rtKey pipelinesViewScreen [] .openJobLog

/-- C5 run: the jobs load resolves with two jobs; the log load of the
first job is dispatched. -/
def c5cfg2 : Config := rtDeliver (c5cfg1.screen) envOk (.fetchPipelineJobs 1 7) [] []

/-- C5 run: the first log load resolves; the loaded handler arms a
job-log tick. -/
def c5cfg3 : Config := rtDeliver (c5cfg2.screen) envOk (.fetchJobLog 1 11) [] []

/-- C5 run: j selects the next job, dispatching a second log load while
the first tick is still armed. -/
def c5cfg4 : Config := rtKey (c5cfg3.screen) (c5cfg3.pending) .jobNext

/-- C5 run: the second log load resolves and arms a second job-log tick;
two timers for the same popup are now outstanding. -/
def c5final : Config :=
  rtDeliver (c5cfg4.screen) envOk (.fetchJobLog 1 12) [.jobLogTick] []

/-- A screen that has left the pipelines view (files tab focused) while a
pipelines list from the previous view is still in the model. -/
def leftPipelinesScreen : MainScreen :=
  { baseScreen with
    contentTab := .files
    pipelines := [⟨42, "success"⟩]
    selectedContent := 0 }

/-- A job-log popup with two jobs, the second selected. -/
def jobsViewScreen : MainScreen :=
  { baseScreen with
    showJobLogPopup := true
    currentPipelineID := 7
    jobs := [⟨1, "build", "success"⟩, ⟨2, "test", "failed"⟩]
    selectedJobIdx := 1 }

/-- A screen with two pipelines listed, the second selected. -/
def pipelines2Screen : MainScreen :=
  { baseScreen with
    contentTab := .pipelines
    pipelines := [⟨42, "success"⟩, ⟨43, "failed"⟩]
    selectedContent := 1 }

/-- A network where every attempt fails at transport level. -/
def transportFailOutcomes : Nat → AttemptOutcome :=
  fun _ => .transportError "connection refused"

/-- A network where every attempt yields a 500. -/
def serverErrorOutcomes : Nat → AttemptOutcome :=
  fun _ => .response 500 "oops"

/-- A network where the first attempt yields a 404. -/
def notFoundOutcomes : Nat → AttemptOutcome :=
  fun _ => .response 404 "nope"

/-- A network where every attempt yields a 200 with a fixed body. -/
def okOutcomes : Nat → AttemptOutcome :=
  fun _ => .response 200 "body"

/-- A decoder that always fails. -/
def decodeNothing : String → Option (List Project) :=
  fun _ => none

/-- Projects as decoded from a list response: one plain, one renamed with
the deletion marker, one with a deletion timestamp, one with an empty
timestamp. -/
def sampleProjects : List Project :=
  [⟨1, "alpha", none⟩, ⟨2, "beta deletion_scheduled", none⟩,
   ⟨3, "gamma", some "2026-01-01"⟩, ⟨4, "delta", some ""⟩]

/-- A decoder that yields `sampleProjects`. -/
def decodeProjects : String → Option (List Project) :=
  fun _ => some sampleProjects

/-- Three tree entries awaiting enrichment. -/
def sampleEntries : List TreeEntry :=
  [⟨"a.go", "src/a.go", none⟩, ⟨"b.go", "src/b.go", none⟩, ⟨"c.go", "src/c.go", none⟩]

/-- Enrichment outcomes: the first entry succeeds, the others fail. -/
def sampleResults : Nat → Option Commit :=
  fun i => if i = 0 then some ⟨"abc1234", "fix build"⟩ else none

/-- The state after finishing task `i` (the finish branch of the step
relation, named so that enabledness after a completed task can be
stated). -/
def finishState (results : Nat → Option Commit) (s : EnrichState) (i : Nat) : EnrichState :=
  { s with phases := s.phases.set i .done, entries := finishEntry results s.entries i }

/-- The state after task `j` acquires a slot. -/
def acquireState (s : EnrichState) (j : Nat) : EnrichState :=
  { s with phases := s.phases.set j .inFlight }

/-- A single tree entry awaiting enrichment. -/
def oneEntry : List TreeEntry := [⟨"a.go", "src/a.go", none⟩]

/-- The one-entry pass after its task acquired the slot. -/
def oneEntryAcquired : EnrichState := acquireState (initEnrichState 2 oneEntry) 0

/-- The one-entry pass after its task finished. -/
def oneEntryDone : EnrichState := finishState sampleResults oneEntryAcquired 0

/-- The spec class of the result of a fetch run, read off the returned
value alone: the class of the error on failure, nothing on success. -/
def classOfGetResult {α : Type} : Except GetError α → Option SpecErrorClass
  | .error e => classOfGetError e
  | .ok _ => none

/-! # Helper lemmas -/

theorem startsWithChars_nil (s : List Char) : startsWithChars s [] = true := by
  cases s <;> rfl

theorem startsWithChars_append (sub post : List Char) :
    startsWithChars (sub ++ post) sub = true := by
  induction sub with
  | nil => exact startsWithChars_nil _
  | cons a as ih => simp [startsWithChars, ih]

theorem containsChars_cons_of (c : Char) (s sub : List Char)
    (h : containsChars s sub = true) : containsChars (c :: s) sub = true := by
  rw [containsChars.eq_def]
  by_cases hs : startsWithChars (c :: s) sub = true
  · simp [hs]
  · simpa [hs] using h

theorem containsChars_append_middle (pre sub post : List Char) :
    containsChars (pre ++ (sub ++ post)) sub = true := by
  induction pre with
  | nil =>
      rw [containsChars.eq_def]
      simp [startsWithChars_append]
  | cons a t ih => exact containsChars_cons_of a _ _ ih

theorem goStringsContains_append_middle (pre sub post : String) :
    goStringsContains (pre ++ (sub ++ post)) sub = true := by
  unfold goStringsContains
  rw [String.data_append, String.data_append]
  exact containsChars_append_middle _ _ _

theorem get?_some_lt {α : Type} {l : List α} {i : Nat} {a : α}
    (h : l.get? i = some a) : i < l.length := by
  induction l generalizing i with
  | nil => simp at h
  | cons x t ih =>
    cases i with
    | zero => simp
    | succ n =>
        simp only [List.get?] at h
        have := ih h
        simpa using Nat.succ_lt_succ this

theorem findIdxBy_lt_length {α : Type} {p : α → Bool} {l : List α} {i : Nat}
    (h : findIdxBy p l = some i) : i < l.length := by
  induction l generalizing i with
  | nil => simp [findIdxBy] at h
  | cons a t ih =>
    rw [findIdxBy] at h
    by_cases hp : p a
    · simp [hp] at h
      simp only [List.length_cons]
      omega
    · simp [hp] at h
      obtain ⟨j, hj, hji⟩ := h
      have := ih hj
      simp only [List.length_cons]
      omega

theorem attemptResult_error_of_retryable (o : AttemptOutcome) (a : Nat)
    (h : retryableOutcome o = true) :
    ∃ e : RetryError, attemptResult o a = .error e ∧
      e.attempt = a + 1 ∧ e.total = MaxRetries + 1 := by
  cases o with
  | transportError m =>
      exact ⟨.requestFailed (a + 1) (MaxRetries + 1) m, rfl, rfl, rfl⟩
  | response s b =>
      simp only [retryableOutcome] at h
      exact ⟨.apiError s (a + 1) (MaxRetries + 1) b, by simp [attemptResult, h], rfl, rfl⟩

theorem doWithRetryLoop_error_step (outcomes : Nat → AttemptOutcome) (a f : Nat)
    (e : RetryError) (h : attemptResult (outcomes a) a = .error e) :
    doWithRetryLoop outcomes a (f + 1) = doWithRetryLoop outcomes (a + 1) f := by
  rw [doWithRetryLoop.eq_def, h]

theorem doWithRetryLoop_error_base (outcomes : Nat → AttemptOutcome) (a : Nat)
    (e : RetryError) (h : attemptResult (outcomes a) a = .error e) :
    doWithRetryLoop outcomes a 0 = (a + 1, .error e) := by
  rw [doWithRetryLoop.eq_def, h]

theorem retryError_message_embeds_attempt (e : RetryError)
    (ha : e.attempt = 4) (ht : e.total = 4) :
    goStringsContains (e.message) ("(attempt 4/4)") = true := by
  cases e with
  | requestFailed a t m =>
      simp only [RetryError.attempt] at ha
      simp only [RetryError.total] at ht
      subst ha; subst ht
      have hm : RetryError.message (.requestFailed 4 4 m) =
          "request failed " ++ ("(attempt 4/4)" ++ (": " ++ m)) := by
        simp only [RetryError.message, String.append_assoc]
        rfl
      rw [hm]
      exact goStringsContains_append_middle _ _ _
  | apiError s a t b =>
      simp only [RetryError.attempt] at ha
      simp only [RetryError.total] at ht
      subst ha; subst ht
      have hm : RetryError.message (.apiError s 4 4 b) =
          ("API error " ++ (toString s ++ " ")) ++ ("(attempt 4/4)" ++ (": " ++ b)) := by
        simp only [RetryError.message, String.append_assoc]
        rfl
      rw [hm]
      exact goStringsContains_append_middle _ _ _

/-! # Claim C3 -/

/-- C3: when every attempt fails with a retryable outcome (transport
error, 5xx, or 429), doWithRetry performs exactly MaxRetries + 1 = 4
attempts, never more, returns the error of the last attempt, and that
error embeds the attempt count 4/4 in its message. -/
theorem c3_retry_budget (outcomes : Nat → AttemptOutcome)
    (h : ∀ i, i ≤ MaxRetries → retryableOutcome (outcomes i) = true) :
    (doWithRetry outcomes).1 = MaxRetries + 1 ∧
    ∃ e : RetryError,
      (doWithRetry outcomes).2 = .error e ∧
      attemptResult (outcomes MaxRetries) MaxRetries = .error e ∧
      e.attempt = MaxRetries + 1 ∧ e.total = MaxRetries + 1 ∧
      goStringsContains (e.message) ("(attempt 4/4)") = true := by
  obtain ⟨e0, he0, _, _⟩ := attemptResult_error_of_retryable (outcomes 0) 0 (h 0 (by decide))
  obtain ⟨e1, he1, _, _⟩ := attemptResult_error_of_retryable (outcomes 1) 1 (h 1 (by decide))
  obtain ⟨e2, he2, _, _⟩ := attemptResult_error_of_retryable (outcomes 2) 2 (h 2 (by decide))
  obtain ⟨e3, he3, ha3, ht3⟩ :=
    attemptResult_error_of_retryable (outcomes 3) 3 (h 3 (by decide))
  have s0 : doWithRetryLoop outcomes 0 3 = doWithRetryLoop outcomes 1 2 :=
    doWithRetryLoop_error_step outcomes 0 2 e0 he0
  have s1 : doWithRetryLoop outcomes 1 2 = doWithRetryLoop outcomes 2 1 :=
    doWithRetryLoop_error_step outcomes 1 1 e1 he1
  have s2 : doWithRetryLoop outcomes 2 1 = doWithRetryLoop outcomes 3 0 :=
    doWithRetryLoop_error_step outcomes 2 0 e2 he2
  have s3 : doWithRetryLoop outcomes 3 0 = (4, .error e3) :=
    doWithRetryLoop_error_base outcomes 3 e3 he3
  have hrun : doWithRetry outcomes = (4, .error e3) := by
    unfold doWithRetry
    rw [show MaxRetries = 3 from rfl, s0, s1, s2, s3]
  refine ⟨by rw [hrun]; rfl, e3, by rw [hrun], he3, ha3, ht3, ?_⟩
  exact retryError_message_embeds_attempt e3 ha3 ht3

/-- C3 witness: four consecutive 500 responses exhaust the budget after
exactly four attempts. -/
theorem c3_retry_budget_witness :
    (∀ i, i ≤ MaxRetries → retryableOutcome (serverErrorOutcomes i) = true) ∧
    (doWithRetry serverErrorOutcomes).1 = MaxRetries + 1 := by
  refine ⟨by decide, (c3_retry_budget serverErrorOutcomes (by decide)).1⟩

/-! # Claim C8 -/

/-- C8: a first attempt answered with a 4xx client-error status other
than 429 is returned to the caller after exactly one attempt; no retry
happens. -/
theorem c8_no_retry_on_client_error (outcomes : Nat → AttemptOutcome) (s : Nat) (b : String)
    (h0 : outcomes 0 = .response s b) (h4xx : 400 ≤ s) (h5xx : s < 500) (h429 : s ≠ 429) :
    doWithRetry outcomes = (1, .ok ⟨s, b⟩) := by
  have hr : isRetryableStatus s = false := by
    simp only [isRetryableStatus, ServerErrorMin, RateLimitStatus, Bool.or_eq_false_iff,
      decide_eq_false_iff_not, beq_eq_false_iff_ne]
    omega
  unfold doWithRetry
  rw [show MaxRetries = 3 from rfl, doWithRetryLoop.eq_def, h0]
  simp [attemptResult, hr]

/-- C8 witness: a single 404 response is returned after one attempt. -/
theorem c8_no_retry_on_client_error_witness :
    notFoundOutcomes 0 = .response 404 "nope" ∧
    doWithRetry notFoundOutcomes = (1, .ok ⟨404, "nope"⟩) :=
  ⟨rfl, c8_no_retry_on_client_error notFoundOutcomes 404 "nope" rfl (by decide) (by decide)
    (by decide)⟩

/-! # Claim C9 -/

theorem get_eq_getFrom {α : Type} (outcomes : Nat → AttemptOutcome)
    (decode : String → Option α) : get outcomes decode = getFrom outcomes decode 0 MaxRetries :=
  rfl

theorem doWithRetryLoop_ok (outcomes : Nat → AttemptOutcome) (a fuel : Nat) (r : Response)
    (h : attemptResult (outcomes a) a = .ok r) :
    doWithRetryLoop outcomes a fuel = (a + 1, .ok r) := by
  rw [doWithRetryLoop.eq_def, h]

theorem classOf_getFrom_resolved {α : Type} (outcomes : Nat → AttemptOutcome)
    (decode : String → Option α) (a fuel : Nat) (s : Nat) (b : String)
    (ho : outcomes a = .response s b) (hr : isRetryableStatus s = false) :
    classOfGetResult (getFrom outcomes decode a fuel) = runClassLoop outcomes decode a fuel := by
  have hA : attemptResult (outcomes a) a = .ok ⟨s, b⟩ := by
    simp [attemptResult, ho, hr]
  have hret : retryableOutcome (outcomes a) = false := by
    simp [retryableOutcome, ho, hr]
  have hL : classOfGetResult (getFrom outcomes decode a fuel) =
      runClassResolved decode (.response s b) := by
    unfold getFrom
    rw [doWithRetryLoop_ok outcomes a fuel ⟨s, b⟩ hA]
    by_cases h200 : s = 200
    · cases hd : decode b <;>
        simp [h200, hd, classOfGetResult, classOfGetError, runClassResolved]
    · simp [h200, classOfGetResult, classOfGetError, runClassResolved]
  rw [hL]
  cases fuel with
  | zero => simp [runClassLoop, runClassTerminal, retryableOutcome, ho, hr]
  | succ f => simp [runClassLoop, retryableOutcome, ho, hr]

theorem classOf_getFrom {α : Type} (outcomes : Nat → AttemptOutcome)
    (decode : String → Option α) :
    ∀ fuel a, classOfGetResult (getFrom outcomes decode a fuel) =
      runClassLoop outcomes decode a fuel := by
  intro fuel
  induction fuel with
  | zero =>
    intro a
    cases ho : outcomes a with
    | transportError m =>
        have hA : attemptResult (outcomes a) a =
            .error (.requestFailed (a + 1) (MaxRetries + 1) m) := by
          simp [attemptResult, ho]
        have hd := doWithRetryLoop_error_base outcomes a _ hA
        unfold getFrom
        rw [hd]
        simp [classOfGetResult, classOfGetError, runClassLoop, runClassTerminal,
          retryableOutcome, ho]
    | response s b =>
        by_cases hr : isRetryableStatus s = true
        · have hA : attemptResult (outcomes a) a =
              .error (.apiError s (a + 1) (MaxRetries + 1) b) := by
            simp [attemptResult, ho, hr]
          have hd := doWithRetryLoop_error_base outcomes a _ hA
          unfold getFrom
          rw [hd]
          have hRHS : runClassLoop outcomes decode a 0 =
              some (if s = RateLimitStatus then SpecErrorClass.rateLimited
                else SpecErrorClass.serverUnavailable) := by
            simp [runClassLoop, runClassTerminal, retryableOutcome, ho, hr]
          rw [hRHS]
          by_cases h429 : s = RateLimitStatus <;>
            simp [classOfGetResult, classOfGetError, h429]
        · exact classOf_getFrom_resolved outcomes decode a 0 s b ho (by simpa using hr)
  | succ f ih =>
    intro a
    cases ho : outcomes a with
    | transportError m =>
        have hA : attemptResult (outcomes a) a =
            .error (.requestFailed (a + 1) (MaxRetries + 1) m) := by
          simp [attemptResult, ho]
        have hstep : getFrom outcomes decode a (f + 1) = getFrom outcomes decode (a + 1) f := by
          unfold getFrom
          rw [doWithRetryLoop_error_step outcomes a f _ hA]
        have hclass : runClassLoop outcomes decode a (f + 1) =
            runClassLoop outcomes decode (a + 1) f := by
          simp [runClassLoop, retryableOutcome, ho]
        rw [hstep, hclass]
        exact ih (a + 1)
    | response s b =>
        by_cases hr : isRetryableStatus s = true
        · have hA : attemptResult (outcomes a) a =
              .error (.apiError s (a + 1) (MaxRetries + 1) b) := by
            simp [attemptResult, ho, hr]
          have hstep : getFrom outcomes decode a (f + 1) =
              getFrom outcomes decode (a + 1) f := by
            unfold getFrom
            rw [doWithRetryLoop_error_step outcomes a f _ hA]
          have hclass : runClassLoop outcomes decode a (f + 1) =
              runClassLoop outcomes decode (a + 1) f := by
            simp [runClassLoop, retryableOutcome, ho, hr]
          rw [hstep, hclass]
          exact ih (a + 1)
        · exact classOf_getFrom_resolved outcomes decode a (f + 1) s b ho (by simpa using hr)

/-- C9 (amended): the failure classification the source offers is carried
by the error value alone, not by a typed five-way taxonomy: for every run,
the class recoverable from the get result (network failure, retry-exhausted
429/5xx, HTTP-status error, decode failure) agrees with the class of the
run computed from the raw outcomes, so a consumer can recover it from the
error; but the classes include NetworkUnavailable, which is outside the
five classes the claim lists. -/
theorem c9_error_classification {α : Type} (outcomes : Nat → AttemptOutcome)
    (decode : String → Option α) :
    classOfGetResult (get outcomes decode) = runClass outcomes decode := by
  rw [get_eq_getFrom]
  exact classOf_getFrom outcomes decode MaxRetries 0

/-- C9 counterexample: a run whose four attempts all fail at transport
level yields a failure whose class per the spec taxonomy is
NetworkUnavailable, which is not one of the five classes the claim allows,
and the error value is a formatted string payload, not a member of a typed
five-way classification. -/
theorem c9_counterexample :
    get transportFailOutcomes decodeNothing =
      .error (.retry (.requestFailed 4 4 "connection refused")) ∧
    classOfGetError (.retry (.requestFailed 4 4 "connection refused")) =
      some .networkUnavailable ∧
    (claimErrorClasses.contains .networkUnavailable) = false := by
  refine ⟨rfl, rfl, by decide⟩

/-! # Claim C10 -/

theorem filterCondition_eq_claimActive (p : Project) :
    (!(markedForDeletion p) && !(goStringsContains (p.name) ("deletion_scheduled"))) =
      claimActiveProject p := by
  cases hmd : p.markedForDeletionAt with
  | none => simp [markedForDeletion, claimActiveProject, hmd]
  | some s =>
      by_cases hs : s = ""
      · simp [markedForDeletion, claimActiveProject, hmd, hs]
      · simp [markedForDeletion, claimActiveProject, hmd, hs]

theorem filterActiveProjects_foldl (l : List Project) (acc : List Project) :
    l.foldl
      (fun result p =>
        if !(markedForDeletion p) && !(goStringsContains (p.name) ("deletion_scheduled")) then
          result ++ [p]
        else result)
      acc = acc ++ l.filter claimActiveProject := by
  induction l generalizing acc with
  | nil => simp
  | cons p t ih =>
    simp only [List.foldl_cons]
    rw [filterCondition_eq_claimActive p]
    by_cases hp : claimActiveProject p = true
    · rw [if_pos hp, ih]
      simp [List.filter_cons, hp]
    · rw [if_neg hp, ih]
      have hp' : claimActiveProject p = false := by simpa using hp
      simp [List.filter_cons, hp']

theorem filterActiveProjects_eq_filter (l : List Project) :
    filterActiveProjects l = l.filter claimActiveProject := by
  unfold filterActiveProjects
  rw [filterActiveProjects_foldl l []]
  rfl

/-- C10: on every successful call, ListGroupProjects, ListProjects and
SearchProjects return exactly the decoded projects whose
MarkedForDeletionAt is nil or empty and whose name does not contain the
deletion marker substring, in their original order (a List.filter), and
membership in the result is equivalent to being an active member of the
decoded list. -/
theorem c10_deletion_scheduled_filter (outcomes : Nat → AttemptOutcome)
    (decode : String → Option (List Project)) (ps : List Project)
    (h : get outcomes decode = .ok ps) :
    ListGroupProjects outcomes decode = .ok (ps.filter claimActiveProject) ∧
    ListProjects outcomes decode = .ok (ps.filter claimActiveProject) ∧
    SearchProjects outcomes decode = .ok (ps.filter claimActiveProject) ∧
    ∀ p : Project, p ∈ ps.filter claimActiveProject ↔ p ∈ ps ∧ claimActiveProject p = true := by
  refine ⟨?_, ?_, ?_, ?_⟩
  · simp [ListGroupProjects, h, filterActiveProjects_eq_filter]
  · simp [ListProjects, h, filterActiveProjects_eq_filter]
  · simp [SearchProjects, h, filterActiveProjects_eq_filter]
  · intro p
    simp [List.mem_filter]

/-- C10 witness: of the four sample projects, only the plain one and the
one with an empty deletion timestamp survive the filter. -/
theorem c10_deletion_scheduled_filter_witness :
    get okOutcomes decodeProjects = .ok sampleProjects ∧
    ListGroupProjects okOutcomes decodeProjects =
      .ok [⟨1, "alpha", none⟩, ⟨4, "delta", some ""⟩] := by
  have h : get okOutcomes decodeProjects = .ok sampleProjects := by rfl
  refine ⟨h, ?_⟩
  rw [(c10_deletion_scheduled_filter okOutcomes decodeProjects sampleProjects h).1]
  rfl

/-! # Claims C6 and C7: the enrichment fan-out -/

theorem countP_set_swap {α : Type} (p : α → Bool) (l : List α) (i : Nat) (a b : α)
    (h : l.get? i = some a) :
    (l.set i b).countP p + (if p a then 1 else 0) = l.countP p + (if p b then 1 else 0) := by
  induction l generalizing i with
  | nil => simp at h
  | cons x t ih =>
    cases i with
    | zero =>
        simp only [List.get?_cons_zero, Option.some.injEq] at h
        subst h
        simp only [List.set, List.countP_cons]
        omega
    | succ n =>
        simp only [List.get?_cons_succ] at h
        have := ih n h
        simp only [List.set, List.countP_cons]
        omega

theorem get?_some_of_lt {α : Type} {l : List α} {i : Nat} (h : i < l.length) :
    ∃ a, l.get? i = some a := by
  cases hg : l.get? i with
  | none =>
      rw [List.get?_eq_none] at hg
      omega
  | some a => exact ⟨a, rfl⟩

theorem inFlightCount_acquire {phases : List TaskPhase} {i : Nat}
    (h : phases.get? i = some .spawned) :
    inFlightCount (phases.set i .inFlight) = inFlightCount phases + 1 := by
  unfold inFlightCount
  have := countP_set_swap (fun ph => decide (ph = TaskPhase.inFlight)) phases i
    TaskPhase.spawned TaskPhase.inFlight h
  simpa using this

theorem inFlightCount_finish {phases : List TaskPhase} {i : Nat}
    (h : phases.get? i = some .inFlight) :
    inFlightCount (phases.set i .done) + 1 = inFlightCount phases := by
  unfold inFlightCount
  have := countP_set_swap (fun ph => decide (ph = TaskPhase.inFlight)) phases i
    TaskPhase.inFlight TaskPhase.done h
  simpa using this

theorem inFlightCount_init (entries : List TreeEntry) :
    inFlightCount (entries.map (fun _ => TaskPhase.spawned)) = 0 := by
  induction entries with
  | nil => rfl
  | cons e t ih => simpa [inFlightCount, List.countP_cons] using ih

theorem get?_map_const_ne_done (entries : List TreeEntry) (i : Nat) :
    (entries.map (fun _ => TaskPhase.spawned)).get? i ≠ some TaskPhase.done := by
  induction entries generalizing i with
  | nil => simp
  | cons e t ih =>
    cases i with
    | zero => simp
    | succ n => simpa using ih n

theorem enrich_reachable_cap_count (results : Nat → Option Commit) (cap : Nat)
    (entries : List TreeEntry) :
    ∀ s, EnrichReachable results (initEnrichState cap entries) s →
      s.cap = cap ∧ inFlightCount s.phases ≤ cap := by
  intro s h
  induction h with
  | refl =>
      refine ⟨rfl, ?_⟩
      have h0 : inFlightCount (initEnrichState cap entries).phases = 0 :=
        inFlightCount_init entries
      omega
  | @step b c hreach hstep ih =>
      obtain ⟨hcap, hcount⟩ := ih
      cases hstep with
      | acquire i hph hc =>
          refine ⟨hcap, ?_⟩
          show inFlightCount (b.phases.set i TaskPhase.inFlight) ≤ cap
          rw [inFlightCount_acquire hph]
          rw [hcap] at hc
          omega
      | finish i hph =>
          refine ⟨hcap, ?_⟩
          show inFlightCount (b.phases.set i TaskPhase.done) ≤ cap
          have hdec := inFlightCount_finish hph
          omega

theorem countP_one_of_get? {α : Type} (p : α → Bool) {l : List α} {i : Nat} {a : α}
    (h : l.get? i = some a) (hp : p a = true) : 1 ≤ l.countP p := by
  induction l generalizing i with
  | nil => simp at h
  | cons x t ih =>
    cases i with
    | zero =>
        simp only [List.get?_cons_zero, Option.some.injEq] at h
        subst h
        simp [List.countP_cons, hp]
    | succ n =>
        simp only [List.get?_cons_succ] at h
        have := ih h
        simp only [List.countP_cons]
        omega

/-- C6: in the semaphore discipline of fetchLastCommits, for every entry
list and every capacity C of the buffered channel with C ≥ 1, no
reachable state of the pass has more than C enrichment operations in
flight; and the window slides: finishing any in-flight task frees a slot
(the in-flight count drops strictly below C), and whenever a slot is free
a pending task can acquire it immediately, independent of the other
tasks.  The source instantiates C = fetchLastCommitsCap = 10. -/
theorem c6_bounded_concurrency (results : Nat → Option Commit) (cap : Nat)
    (entries : List TreeEntry) (hcap : 1 ≤ cap) :
    (∀ s, EnrichReachable results (initEnrichState cap entries) s →
      inFlightCount s.phases ≤ cap) ∧
    (∀ s i, EnrichReachable results (initEnrichState cap entries) s →
      s.phases.get? i = some .inFlight →
      inFlightCount ((finishState results s i).phases) < cap) ∧
    (∀ s j, EnrichReachable results (initEnrichState cap entries) s →
      s.phases.get? j = some .spawned →
      inFlightCount s.phases < cap →
      EnrichStep results s (acquireState s j)) := by
  refine ⟨?_, ?_, ?_⟩
  · intro s hre
    exact (enrich_reachable_cap_count results cap entries s hre).2
  · intro s i hre hph
    obtain ⟨hscap, hcount⟩ := enrich_reachable_cap_count results cap entries s hre
    have hdec := inFlightCount_finish hph
    simp only [finishState]
    omega
  · intro s j hre hph hfree
    obtain ⟨hscap, _⟩ := enrich_reachable_cap_count results cap entries s hre
    exact EnrichStep.acquire s j hph (by rw [hscap]; exact hfree)

/-- C6 witness: a one-entry pass with capacity 2, after the acquire step,
stays within the bound. -/
theorem c6_bounded_concurrency_witness :
    1 ≤ 2 ∧ inFlightCount oneEntryAcquired.phases ≤ 2 :=
  ⟨by decide,
   (c6_bounded_concurrency sampleResults 2 oneEntry (by decide)).1 oneEntryAcquired
     (EnrichReachable.step EnrichReachable.refl
       (EnrichStep.acquire _ 0 (by decide) (by decide)))⟩

theorem finishEntry_length (results : Nat → Option Commit) (l : List TreeEntry) (i : Nat) :
    (finishEntry results l i).length = l.length := by
  unfold finishEntry setLastCommit
  cases results i with
  | none => rfl
  | some c => cases l.get? i <;> simp

theorem finishEntry_get?_ne (results : Nat → Option Commit) (l : List TreeEntry)
    (i j : Nat) (h : i ≠ j) :
    (finishEntry results l i).get? j = l.get? j := by
  unfold finishEntry setLastCommit
  cases results i with
  | none => rfl
  | some c =>
      cases hi : l.get? i with
      | none => rfl
      | some e => exact List.get?_set_ne _ _ h

theorem finishEntry_get?_self (results : Nat → Option Commit) (l : List TreeEntry)
    (i : Nat) (e : TreeEntry) (hi : l.get? i = some e) :
    (finishEntry results l i).get? i = some (entryAfter results i e) := by
  unfold finishEntry setLastCommit entryAfter
  cases results i with
  | none => exact hi
  | some c =>
      rw [hi]
      exact List.get?_set_eq_of_lt _ (get?_some_lt hi)

theorem enrich_reachable_entries (results : Nat → Option Commit) (cap : Nat)
    (entries : List TreeEntry) :
    ∀ s, EnrichReachable results (initEnrichState cap entries) s →
      s.phases.length = entries.length ∧ s.entries.length = entries.length ∧
      ∀ i, (s.phases.get? i = some .done →
          s.entries.get? i = (entries.get? i).map (entryAfter results i)) ∧
        (s.phases.get? i ≠ some .done → s.entries.get? i = entries.get? i) := by
  intro s h
  induction h with
  | refl =>
      refine ⟨by simp [initEnrichState], rfl, ?_⟩
      intro i
      constructor
      · intro hdone
        exact absurd hdone (get?_map_const_ne_done entries i)
      · intro _
        rfl
  | @step b c hreach hstep ih =>
      obtain ⟨hplen, helen, hinv⟩ := ih
      cases hstep with
      | acquire i hph hc =>
          refine ⟨by simpa using hplen, helen, ?_⟩
          intro j
          by_cases hij : i = j
          · subst hij
            have hlt : i < b.phases.length := get?_some_lt hph
            have hset : (b.phases.set i TaskPhase.inFlight).get? i = some .inFlight :=
              List.get?_set_eq_of_lt _ hlt
            constructor
            · intro hdone
              rw [hset] at hdone
              simp at hdone
            · intro _
              exact (hinv i).2 (by rw [hph]; simp)
          · have hset : (b.phases.set i TaskPhase.inFlight).get? j = b.phases.get? j :=
              List.get?_set_ne _ _ hij
            constructor
            · intro hdone
              rw [hset] at hdone
              exact (hinv j).1 hdone
            · intro hnd
              rw [hset] at hnd
              exact (hinv j).2 hnd
      | finish i hph =>
          refine ⟨by simpa using hplen, by rw [finishEntry_length]; exact helen, ?_⟩
          intro j
          by_cases hij : i = j
          · subst hij
            have hlt : i < b.phases.length := get?_some_lt hph
            have hset : (b.phases.set i TaskPhase.done).get? i = some .done :=
              List.get?_set_eq_of_lt _ hlt
            have hold : b.entries.get? i = entries.get? i :=
              (hinv i).2 (by rw [hph]; simp)
            have hiorig : i < entries.length := by rw [← hplen]; exact hlt
            obtain ⟨e, he⟩ := get?_some_of_lt hiorig
            constructor
            · intro _
              have hbe : b.entries.get? i = some e := by rw [hold, he]
              rw [finishEntry_get?_self results b.entries i e hbe, he]
              rfl
            · intro hnd
              exact absurd hset hnd
          · have hset : (b.phases.set i TaskPhase.done).get? j = b.phases.get? j :=
              List.get?_set_ne _ _ hij
            have hent : (finishEntry results b.entries i).get? j = b.entries.get? j :=
              finishEntry_get?_ne results b.entries i j hij
            constructor
            · intro hdone
              rw [hset] at hdone
              rw [hent]
              exact (hinv j).1 hdone
            · intro hnd
              rw [hset] at hnd
              rw [hent]
              exact (hinv j).2 hnd

theorem enrichAll_get? (results : Nat → Option Commit) (entries : List TreeEntry) (i : Nat) :
    (enrichAll results entries).get? i = (entries.get? i).map (entryAfter results i) := by
  unfold enrichAll
  by_cases hi : i < entries.length
  · rw [List.get?_map, List.get?_range hi]
    obtain ⟨e, he⟩ := get?_some_of_lt hi
    have he' : entries[i]? = some e := by
      rw [← List.get?_eq_getElem?]
      exact he
    simp [he']
  · have h1 : (List.range entries.length).get? i = none := by
      rw [List.get?_eq_none]
      simpa using Nat.le_of_not_lt hi
    rw [List.get?_map, h1]
    have h2 : entries.get? i = none := by
      rw [List.get?_eq_none]
      exact Nat.le_of_not_lt hi
    rw [h2]
    rfl

theorem taskWeight_sum_set (phases : List TaskPhase) (i : Nat) (a b : TaskPhase)
    (h : phases.get? i = some a) :
    ((phases.set i b).map taskWeight).sum + taskWeight a =
      (phases.map taskWeight).sum + taskWeight b := by
  induction phases generalizing i with
  | nil => simp at h
  | cons x t ih =>
    cases i with
    | zero =>
        simp only [List.get?_cons_zero, Option.some.injEq] at h
        subst h
        simp only [List.set, List.map_cons, List.sum_cons]
        omega
    | succ n =>
        simp only [List.get?_cons_succ] at h
        have := ih n h
        simp only [List.set, List.map_cons, List.sum_cons]
        omega

theorem enrich_step_measure (results : Nat → Option Commit) (s s' : EnrichState)
    (h : EnrichStep results s s') : enrichMeasure s' < enrichMeasure s := by
  cases h with
  | acquire i hph hc =>
      have := taskWeight_sum_set s.phases i TaskPhase.spawned TaskPhase.inFlight hph
      simp only [enrichMeasure, taskWeight] at this ⊢
      omega
  | finish i hph =>
      have := taskWeight_sum_set s.phases i TaskPhase.inFlight TaskPhase.done hph
      simp only [enrichMeasure, taskWeight] at this ⊢
      omega

theorem allDone_no_step (results : Nat → Option Commit) (s s' : EnrichState)
    (hd : allDone s.phases = true) : ¬ EnrichStep results s s' := by
  intro h
  cases h with
  | acquire i hph hc =>
      have hmem := List.get?_mem hph
      have := List.all_eq_true.mp hd _ hmem
      simp at this
  | finish i hph =>
      have hmem := List.get?_mem hph
      have := List.all_eq_true.mp hd _ hmem
      simp at this

theorem not_allDone_step (results : Nat → Option Commit) (cap : Nat)
    (entries : List TreeEntry) (hcap : 1 ≤ cap) (s : EnrichState)
    (hre : EnrichReachable results (initEnrichState cap entries) s)
    (hnd : allDone s.phases = false) : ∃ s', EnrichStep results s s' := by
  obtain ⟨hscap, hcount⟩ := enrich_reachable_cap_count results cap entries s hre
  obtain ⟨ph, hmem, hph⟩ : ∃ ph, ph ∈ s.phases ∧ ¬(ph = TaskPhase.done) := by
    by_contra hcon
    push_neg at hcon
    have : allDone s.phases = true := by
      apply List.all_eq_true.mpr
      intro x hx
      simpa using hcon x hx
    rw [this] at hnd
    simp at hnd
  obtain ⟨i, hi⟩ := List.get?_of_mem hmem
  cases ph with
  | done => exact absurd rfl hph
  | inFlight =>
      exact ⟨finishState results s i, EnrichStep.finish s i hi⟩
  | spawned =>
      by_cases hzero : inFlightCount s.phases = 0
      · refine ⟨acquireState s i, EnrichStep.acquire s i hi ?_⟩
        rw [hzero, hscap]
        omega
      · have hpos : 0 < s.phases.countP (fun ph => decide (ph = TaskPhase.inFlight)) := by
          unfold inFlightCount at hzero
          omega
        obtain ⟨x, hxmem, hx⟩ := List.countP_pos.mp hpos
        have hxin : x = TaskPhase.inFlight := by simpa using hx
        subst hxin
        obtain ⟨j, hj⟩ := List.get?_of_mem hxmem
        exact ⟨finishState results s j, EnrichStep.finish s j hj⟩

/-- C7: in the enrichment pass, for any capacity C ≥ 1: every reachable
state keeps all M base entries (length preserved); once all tasks are
done, the entries are exactly the base items with each successful task's
commit written in and each failed task's entry unmodified; a failed
task's entry is unmodified in every reachable state; every step strictly
decreases the termination measure (the pass is a bounded, terminating
fan-out); an all-done state admits no further step (the pass returns);
and a reachable state that is not all-done always has a next step (no
deadlock before completion). -/
theorem c7_enrichment_resilience (results : Nat → Option Commit) (cap : Nat)
    (entries : List TreeEntry) (hcap : 1 ≤ cap) :
    (∀ s, EnrichReachable results (initEnrichState cap entries) s →
      s.entries.length = entries.length) ∧
    (∀ s, EnrichReachable results (initEnrichState cap entries) s →
      allDone s.phases = true → s.entries = enrichAll results entries) ∧
    (∀ s i, EnrichReachable results (initEnrichState cap entries) s →
      results i = none → s.entries.get? i = entries.get? i) ∧
    (∀ s s', EnrichStep results s s' → enrichMeasure s' < enrichMeasure s) ∧
    (∀ s s', allDone s.phases = true → ¬ EnrichStep results s s') ∧
    (∀ s, EnrichReachable results (initEnrichState cap entries) s →
      allDone s.phases = false → ∃ s', EnrichStep results s s') := by
  refine ⟨?_, ?_, ?_, ?_, ?_, ?_⟩
  · intro s hre
    exact (enrich_reachable_entries results cap entries s hre).2.1
  · intro s hre hd
    obtain ⟨hplen, helen, hinv⟩ := enrich_reachable_entries results cap entries s hre
    apply List.ext_get?
    intro i
    rw [enrichAll_get?]
    by_cases hi : i < entries.length
    · have hlt : i < s.phases.length := by rw [hplen]; exact hi
      obtain ⟨ph, hph⟩ := get?_some_of_lt hlt
      have hphd : ph = TaskPhase.done := by
        have hmem := List.get?_mem hph
        have := List.all_eq_true.mp hd _ hmem
        simpa using this
      subst hphd
      exact (hinv i).1 hph
    · have h1 : s.entries.get? i = none := by
        rw [List.get?_eq_none, helen]
        exact Nat.le_of_not_lt hi
      have h2 : entries.get? i = none := by
        rw [List.get?_eq_none]
        exact Nat.le_of_not_lt hi
      rw [h1, h2]
      rfl
  · intro s i hre hfail
    obtain ⟨hplen, helen, hinv⟩ := enrich_reachable_entries results cap entries s hre
    by_cases hph : s.phases.get? i = some TaskPhase.done
    · have h1 := (hinv i).1 hph
      rw [h1]
      cases he : entries.get? i with
      | none => simp [he]
      | some e => simp [he, entryAfter, hfail]
    · exact (hinv i).2 hph
  · exact enrich_step_measure results
  · exact allDone_no_step results
  · exact not_allDone_step results cap entries hcap

/-- C7 witness: the one-entry pass, run to completion, returns the entry
with its commit filled in, i.e. exactly the fully resolved list. -/
theorem c7_enrichment_resilience_witness :
    allDone oneEntryDone.phases = true ∧
    oneEntryDone.entries = enrichAll sampleResults oneEntry :=
  ⟨by decide,
   (c7_enrichment_resilience sampleResults 2 oneEntry (by decide)).2.1 oneEntryDone
     (EnrichReachable.step
       (EnrichReachable.step EnrichReachable.refl
         (EnrichStep.acquire _ 0 (by decide) (by decide)))
       (EnrichStep.finish _ 0 (by decide)))
     (by decide)⟩

/-! # Runtime helpers for the UI claims -/

theorem rtReachable_stepKey {i b : Config} (h : RtReachable i b) (k : KeyEvent)
    {c : Config} (he : rtKey (b.screen) (b.pending) k = c) : RtReachable i c := by
  cases b with
  | mk s p => exact he ▸ RtReachable.step h (RtStep.key s p k)

theorem rtReachable_stepDeliver {i b : Config} (h : RtReachable i b)
    (pre post : List Cmd) (c : Cmd) (env : FetchEnv)
    (hp : b.pending = pre ++ c :: post) {c2 : Config}
    (he : rtDeliver (b.screen) env c pre post = c2) : RtReachable i c2 := by
  cases b with
  | mk s p =>
      subst he
      have hstep : RtStep ⟨s, p⟩ (rtDeliver s env c pre post) := by
        rw [show p = pre ++ c :: post from hp]
        exact RtStep.deliver s pre post c env
      exact RtReachable.step h hstep

/-! # Claim C1 -/

/-- C1 counterexample: with the pipelines view left (the files tab is
focused), a late pipelinesRefreshedMsg is still merged: the state changes
and the stale fetch result replaces the pipeline list.  The handler has
no guard tying the merge to the view that started the refresh. -/
theorem c1_counterexample :
    leftPipelinesScreen.contentTab = ContentTab.files ∧
    (update leftPipelinesScreen (Msg.pipelinesRefreshed [⟨43, "running"⟩])).1 ≠
      leftPipelinesScreen ∧
    (update leftPipelinesScreen (Msg.pipelinesRefreshed [⟨43, "running"⟩])).1.pipelines =
      [⟨43, "running"⟩] := by
  refine ⟨rfl, by decide, by decide⟩

/-- C1 (amended): the stale-result guard exists only for the job-log
popup: once the popup is closed, a late job-log refresh result and a late
job-list refresh result are both dropped, leaving the screen exactly
unchanged and scheduling nothing; the pipeline-list merge has no such
guard (see the counterexample). -/
theorem c1_stale_popup_messages_dropped :
    (∀ (m : MainScreen) (log : String), m.showJobLogPopup = false →
      update m (Msg.jobLogRefreshed log) = (m, [])) ∧
    (∀ (m : MainScreen) (jobsOpt : Option (List Job)), m.showJobLogPopup = false →
      update m (Msg.jobsRefreshed jobsOpt) = (m, [])) := by
  constructor
  · intro m log h
    simp [update, h]
  · intro m jobsOpt h
    cases jobsOpt with
    | none => simp [update]
    | some js => simp [update, h]

/-- C1 witness: a closed instance of the amended guarantee. -/
theorem c1_stale_popup_messages_dropped_witness :
    baseScreen.showJobLogPopup = false ∧
    update baseScreen (Msg.jobLogRefreshed "late log") = (baseScreen, []) ∧
    update baseScreen (Msg.jobsRefreshed (some [⟨9, "x", "ok"⟩])) = (baseScreen, []) :=
  ⟨rfl, c1_stale_popup_messages_dropped.1 baseScreen "late log" rfl,
   c1_stale_popup_messages_dropped.2 baseScreen (some [⟨9, "x", "ok"⟩]) rfl⟩

/-! # Claim C2 -/

/-- C2 counterexample: the job-list merge has no clamp step.  With two
jobs and the second selected, a refresh that returns a single job with a
different ID leaves selectedJobIdx at 1, beyond the last valid index 0 of
the fresh list, instead of clamping it. -/
theorem c2_counterexample :
    (update jobsViewScreen (Msg.jobsRefreshed (some [⟨9, "deploy", "running"⟩]))).1.jobs.length
      = 1 ∧
    (update jobsViewScreen (Msg.jobsRefreshed (some [⟨9, "deploy", "running"⟩]))).1.selectedJobIdx
      = 1 := by
  refine ⟨by decide, by decide⟩

/-- C2 (amended): (a) both merges re-locate a nonzero selected ID: if the
fresh list contains the previously selected ID, the selection index moves
to its position (pipelines clamp afterwards is a no-op there); (b) the
clamp-on-disappearance exists only in the pipeline merge, where the new
index is min of the old index and the last valid index of the fresh
list; the job merge leaves the index unchanged when the ID is absent,
possibly out of range.  An ID of zero is treated as no selection by both
merges. -/
theorem c2_selection_preserving_merge :
    (∀ (m : MainScreen) (fresh : List Pipeline) (p : Pipeline) (i : Nat),
      m.pipelines.get? m.selectedContent = some p →
      p.id ≠ 0 →
      findIdxBy (fun q => q.id == p.id) fresh = some i →
      (update m (Msg.pipelinesRefreshed fresh)).1.pipelines = fresh ∧
      (update m (Msg.pipelinesRefreshed fresh)).1.selectedContent = i) ∧
    (∀ (m : MainScreen) (fresh : List Job) (jb : Job) (i : Nat),
      m.showJobLogPopup = true →
      0 ≤ m.selectedJobIdx →
      m.selectedJobIdx < (m.jobs.length : Int) →
      m.jobs.get? m.selectedJobIdx.toNat = some jb →
      jb.id ≠ 0 →
      findIdxBy (fun q => q.id == jb.id) fresh = some i →
      (update m (Msg.jobsRefreshed (some fresh))).1.jobs = fresh ∧
      (update m (Msg.jobsRefreshed (some fresh))).1.selectedJobIdx = (i : Int)) ∧
    (∀ (m : MainScreen) (fresh : List Pipeline) (p : Pipeline),
      m.pipelines.get? m.selectedContent = some p →
      findIdxBy (fun q => q.id == p.id) fresh = none →
      fresh ≠ [] →
      fresh.length < m.pipelines.length →
      (update m (Msg.pipelinesRefreshed fresh)).1.selectedContent =
        min m.selectedContent (fresh.length - 1)) ∧
    (∀ (m : MainScreen) (fresh : List Job) (jb : Job),
      m.showJobLogPopup = true →
      0 ≤ m.selectedJobIdx →
      m.selectedJobIdx < (m.jobs.length : Int) →
      m.jobs.get? m.selectedJobIdx.toNat = some jb →
      findIdxBy (fun q => q.id == jb.id) fresh = none →
      (update m (Msg.jobsRefreshed (some fresh))).1.selectedJobIdx = m.selectedJobIdx) := by
  refine ⟨?_, ?_, ?_, ?_⟩
  · intro m fresh p i hsel hid hfind
    have hlt : m.selectedContent < m.pipelines.length := get?_some_lt hsel
    have hselID : selectedPipelineID m = p.id := by
      unfold selectedPipelineID
      rw [if_pos hlt, hsel]
      rfl
    have hlt2 : i < fresh.length := findIdxBy_lt_length hfind
    have hnle : ¬ fresh.length ≤ i := Nat.not_le.mpr hlt2
    constructor
    · simp [update]
    · simp [update, hselID, hid, hfind, hnle]
  · intro m fresh jb i hpop h0 hlen hget hid hfind
    have hselID : selectedJobID m = jb.id := by
      unfold selectedJobID
      rw [if_pos ⟨h0, hlen⟩, hget]
      rfl
    constructor
    · simp [update, hpop]
    · simp [update, hpop, hselID, hid, hfind]
  · intro m fresh p hsel hfind hne hshort
    have hlt : m.selectedContent < m.pipelines.length := get?_some_lt hsel
    have hselID : selectedPipelineID m = p.id := by
      unfold selectedPipelineID
      rw [if_pos hlt, hsel]
      rfl
    have hpos : 0 < fresh.length := List.length_pos.mpr hne
    have hgoal : (update m (Msg.pipelinesRefreshed fresh)).1.selectedContent =
        if fresh.length ≤ m.selectedContent ∧ 0 < fresh.length then fresh.length - 1
        else m.selectedContent := by
      by_cases hid : p.id = 0 <;> simp [update, hselID, hid, hfind]
    rw [hgoal]
    split
    · omega
    · omega
  · intro m fresh jb hpop h0 hlen hget hfind
    have hselID : selectedJobID m = jb.id := by
      unfold selectedJobID
      rw [if_pos ⟨h0, hlen⟩, hget]
      rfl
    by_cases hid : jb.id = 0
    · simp [update, hpop, hselID, hid]
    · simp [update, hpop, hselID, hid, hfind]

/-- C2 witness: closed instances of all four amended parts. -/
theorem c2_selection_preserving_merge_witness :
    pipelines2Screen.pipelines.get? pipelines2Screen.selectedContent = some ⟨43, "failed"⟩ ∧
    (update pipelines2Screen
      (Msg.pipelinesRefreshed [⟨99, "x"⟩, ⟨50, "y"⟩, ⟨43, "ok"⟩])).1.selectedContent = 2 ∧
    (update jobsViewScreen
      (Msg.jobsRefreshed (some [⟨2, "test", "done"⟩]))).1.selectedJobIdx = 0 ∧
    (update pipelines2Screen (Msg.pipelinesRefreshed [⟨99, "x"⟩])).1.selectedContent =
      min pipelines2Screen.selectedContent 0 ∧
    (update jobsViewScreen
      (Msg.jobsRefreshed (some [⟨9, "deploy", "running"⟩]))).1.selectedJobIdx =
      jobsViewScreen.selectedJobIdx := by
  refine ⟨by decide, ?_, ?_, ?_, ?_⟩
  · exact (c2_selection_preserving_merge.1 pipelines2Screen
      [⟨99, "x"⟩, ⟨50, "y"⟩, ⟨43, "ok"⟩] ⟨43, "failed"⟩ 2
      (by decide) (by decide) (by decide)).2
  · have := (c2_selection_preserving_merge.2.1 jobsViewScreen
      [⟨2, "test", "done"⟩] ⟨2, "test", "failed"⟩ 0
      (by decide) (by decide) (by decide) (by decide) (by decide) (by decide)).2
    simpa using this
  · have := c2_selection_preserving_merge.2.2.1 pipelines2Screen [⟨99, "x"⟩] ⟨43, "failed"⟩
      (by decide) (by decide) (by decide) (by decide)
    simpa using this
  · exact c2_selection_preserving_merge.2.2.2 jobsViewScreen
      [⟨9, "deploy", "running"⟩] ⟨2, "test", "failed"⟩
      (by decide) (by decide) (by decide) (by decide) (by decide)

/-! # Claim C4 -/

/-- C4 counterexample: a run of the runtime in which the pipeline refresh
loop is started (switch to the pipelines tab, load succeeds, first tick
armed), the tick fires and dispatches the refresh fetch, and that fetch
fails.  The failed refresh closure returns a nil message, so nothing is
processed and no timer is re-armed: the pending command list ends empty,
and no subsequent tick can ever fire. -/
theorem c4_counterexample :
    RtReachable ⟨baseScreen, []⟩ c4final ∧
    c4cfg3.screen.contentTab = ContentTab.pipelines ∧
    c4cfg3.pending = [Cmd.pipelineTick] ∧
    c4cfg4.pending = [Cmd.fetchPipelinesRefresh 1] ∧
    cmdMsg envFail (Cmd.fetchPipelinesRefresh 1) = none ∧
    c4final.pending = [] := by
  refine ⟨?_, by decide, by decide, by decide, by decide, by decide⟩
  have h1 : RtReachable ⟨baseScreen, []⟩ c4cfg1 :=
    rtReachable_stepKey RtReachable.refl (KeyEvent.switchTab ContentTab.pipelines) rfl
  have h2 : RtReachable ⟨baseScreen, []⟩ c4cfg2 :=
    rtReachable_stepDeliver h1 [] [] (Cmd.fetchPipelines 1) envOk (by decide) rfl
  have h3 : RtReachable ⟨baseScreen, []⟩ c4cfg3 :=
    rtReachable_stepDeliver h2 [] [Cmd.pipelineTick] (Cmd.fetchPipelineJobsForList 1 7) envOk
      (by decide) rfl
  have h4 : RtReachable ⟨baseScreen, []⟩ c4cfg4 :=
    rtReachable_stepDeliver h3 [] [] Cmd.pipelineTick envFail (by decide) rfl
  exact rtReachable_stepDeliver h4 [] [] (Cmd.fetchPipelinesRefresh 1) envFail (by decide) rfl

/-- C4 (amended): the job-log loop arms its next timer at tick time,
before any fetch resolves, so it survives a failed tick; the pipeline
loop arms its next timer only in the success handler, or when the tick
fires while not actively refreshing (off the pipelines tab with a project
selected): an on-tab tick dispatches only the refresh fetch, and a failed
refresh fetch produces no message at all, so nothing re-arms the
pipeline timer after a failure. -/
theorem c4_tick_rearming :
    (∀ m : MainScreen, m.showJobLogPopup = true →
      Cmd.jobLogTick ∈ (update m Msg.jobLogTick).2) ∧
    (∀ (m : MainScreen) (pid : Nat), m.contentTab = ContentTab.pipelines →
      m.selectedProject = some pid → m.loading = false → m.isDemo = false →
      (update m Msg.pipelineTick).2 = [Cmd.fetchPipelinesRefresh pid]) ∧
    (∀ (env : FetchEnv) (pid : Nat), env.pipelinesResult = none →
      cmdMsg env (Cmd.fetchPipelinesRefresh pid) = none) ∧
    (∀ (m : MainScreen) (ps : List Pipeline),
      Cmd.pipelineTick ∈ (update m (Msg.pipelinesRefreshed ps)).2) ∧
    (∀ m : MainScreen, m.contentTab ≠ ContentTab.pipelines →
      m.selectedProject.isSome = true →
      (update m Msg.pipelineTick).2 = [Cmd.pipelineTick]) := by
  refine ⟨?_, ?_, ?_, ?_, ?_⟩
  · intro m h
    simp [update, h]
  · intro m pid htab hproj hload hdemo
    simp [update, htab, hproj, hload, refreshPipelines, hdemo]
  · intro env pid h
    simp [cmdMsg, h]
  · intro m ps
    simp [update]
  · intro m htab hproj
    simp [update, htab, hproj]

/-- C4 witness: closed instances of the amended parts. -/
theorem c4_tick_rearming_witness :
    jobsViewScreen.showJobLogPopup = true ∧
    Cmd.jobLogTick ∈ (update jobsViewScreen Msg.jobLogTick).2 ∧
    (update pipelines2Screen Msg.pipelineTick).2 = [Cmd.fetchPipelinesRefresh 1] ∧
    cmdMsg envFail (Cmd.fetchPipelinesRefresh 1) = none ∧
    Cmd.pipelineTick ∈ (update baseScreen (Msg.pipelinesRefreshed [])).2 :=
  ⟨rfl, c4_tick_rearming.1 jobsViewScreen rfl,
   c4_tick_rearming.2.1 pipelines2Screen 1 rfl rfl rfl rfl,
   c4_tick_rearming.2.2.1 envFail 1 rfl,
   c4_tick_rearming.2.2.2.1 baseScreen []⟩

/-! # Claim C5 -/

/-- C5 counterexample: a run of the runtime in which opening the job-log
popup loads the jobs, the first job log load arms a tick, selecting the
next job dispatches a second log load while the first tick is still
pending, and its completion arms a second tick: two job-log refresh
timers are outstanding for the same popup, so re-opening a live view is
not a no-op and the one-subscription-per-resource invariant does not
exist in the code. -/
theorem c5_counterexample :
    RtReachable ⟨pipelinesViewScreen, []⟩ c5final ∧
    c5final.screen.showJobLogPopup = true ∧
    c5final.pending.countP isJobLogTickCmd = 2 := by
  refine ⟨?_, by decide, by decide⟩
  have h1 : RtReachable ⟨pipelinesViewScreen, []⟩ c5cfg1 :=
    rtReachable_stepKey RtReachable.refl KeyEvent.openJobLog rfl
  have h2 : RtReachable ⟨pipelinesViewScreen, []⟩ c5cfg2 :=
    rtReachable_stepDeliver h1 [] [] (Cmd.fetchPipelineJobs 1 7) envOk (by decide) rfl
  have h3 : RtReachable ⟨pipelinesViewScreen, []⟩ c5cfg3 :=
    rtReachable_stepDeliver h2 [] [] (Cmd.fetchJobLog 1 11) envOk (by decide) rfl
  have h4 : RtReachable ⟨pipelinesViewScreen, []⟩ c5cfg4 :=
    rtReachable_stepKey h3 KeyEvent.jobNext rfl
  exact rtReachable_stepDeliver h4 [Cmd.jobLogTick] [] (Cmd.fetchJobLog 1 12) envOk
    (by decide) rfl

theorem countP_tick_filterMap (m' : MainScreen) (ps : List Pipeline) (p : Cmd → Bool)
    (hp : ∀ a b, p (Cmd.fetchPipelineJobsForList a b) = false) :
    (ps.filterMap (fun q => loadPipelineJobsForList m' (q.id))).countP p = 0 := by
  induction ps with
  | nil => rfl
  | cons q t ih =>
      cases hsp : m'.selectedProject with
      | none => simpa [List.filterMap_cons, loadPipelineJobsForList, hsp] using ih
      | some pid =>
          cases hd : m'.isDemo with
          | true => simpa [List.filterMap_cons, loadPipelineJobsForList, hsp, hd] using ih
          | false =>
              simp [List.filterMap_cons, loadPipelineJobsForList, hsp, hd,
                List.countP_cons, hp, ih]

theorem countP_toList_zero (p : Cmd → Bool) (o : Option Cmd)
    (h : ∀ c, o = some c → p c = false) : o.toList.countP p = 0 := by
  cases o with
  | none => rfl
  | some c => simp [List.countP_cons, h c rfl]

theorem refreshPipelines_some_fetch (m : MainScreen) (c : Cmd)
    (h : refreshPipelines m = some c) : ∃ pid, c = Cmd.fetchPipelinesRefresh pid := by
  unfold refreshPipelines at h
  cases hsp : m.selectedProject with
  | none => simp [hsp] at h
  | some pid =>
      cases hd : m.isDemo with
      | true => simp [hsp, hd] at h
      | false =>
          simp [hsp, hd] at h
          exact ⟨pid, h.symm⟩

theorem loadJobLog_some_fetch (m : MainScreen) (jobID : Nat) (c : Cmd)
    (h : loadJobLog m jobID = some c) : ∃ pid, c = Cmd.fetchJobLog pid jobID := by
  unfold loadJobLog at h
  cases hsp : m.selectedProject with
  | none => simp [hsp] at h
  | some pid =>
      cases hd : m.isDemo with
      | true => simp [hsp, hd] at h
      | false =>
          simp [hsp, hd] at h
          exact ⟨pid, h.symm⟩

theorem refreshJobs_some_fetch (m : MainScreen) (c : Cmd)
    (h : refreshJobs m = some c) : ∃ pid plid, c = Cmd.fetchJobsRefresh pid plid := by
  unfold refreshJobs at h
  cases hsp : m.selectedProject with
  | none => simp [hsp] at h
  | some pid =>
      cases hd : m.isDemo with
      | true => simp [hsp, hd] at h
      | false =>
          by_cases hz : m.currentPipelineID = 0
          · simp [hsp, hd, hz] at h
          · simp [hsp, hd, hz] at h
            exact ⟨pid, m.currentPipelineID, h.symm⟩

theorem refreshJobLog_some_fetch (m : MainScreen) (c : Cmd)
    (h : refreshJobLog m = some c) : ∃ pid jid, c = Cmd.fetchJobLogRefresh pid jid := by
  unfold refreshJobLog at h
  cases hsp : m.selectedProject with
  | none => simp [hsp] at h
  | some pid =>
      cases hd : m.isDemo with
      | true => simp [hsp, hd] at h
      | false =>
          simp only [hsp, hd] at h
          by_cases hg : 0 ≤ m.selectedJobIdx ∧ m.selectedJobIdx < (m.jobs.length : Int)
          · rw [if_pos hg] at h
            cases hj : m.jobs.get? m.selectedJobIdx.toNat with
            | none =>
                rw [hj] at h
                exact Option.noConfusion h
            | some job =>
                rw [hj] at h
                injection h with h
                exact ⟨pid, job.id, h.symm⟩
          · rw [if_neg hg] at h
            exact Option.noConfusion h

/-- C5 (amended): no single message ever arms more than one timer of
either kind: every Update case returns a command list containing at most
one pipeline tick and at most one job-log tick.  Duplicate timers arise
only from processing several arming messages for the same resource
(re-opening or re-loading a view), which the code does not deduplicate
(see the counterexample). -/
theorem c5_single_timer_per_message (m : MainScreen) (msg : Msg) :
    ((update m msg).2.countP isPipelineTickCmd ≤ 1) ∧
    ((update m msg).2.countP isJobLogTickCmd ≤ 1) := by
  have hfmP : ∀ (m' : MainScreen) (ps : List Pipeline),
      (ps.filterMap (fun q => loadPipelineJobsForList m' (q.id))).countP isPipelineTickCmd
        = 0 :=
    fun m' ps => countP_tick_filterMap m' ps isPipelineTickCmd (fun _ _ => rfl)
  have hfmJ : ∀ (m' : MainScreen) (ps : List Pipeline),
      (ps.filterMap (fun q => loadPipelineJobsForList m' (q.id))).countP isJobLogTickCmd
        = 0 :=
    fun m' ps => countP_tick_filterMap m' ps isJobLogTickCmd (fun _ _ => rfl)
  have hrpP := countP_toList_zero isPipelineTickCmd (refreshPipelines m)
    (fun c hc => by obtain ⟨pid, rfl⟩ := refreshPipelines_some_fetch m c hc; rfl)
  have hrpJ := countP_toList_zero isJobLogTickCmd (refreshPipelines m)
    (fun c hc => by obtain ⟨pid, rfl⟩ := refreshPipelines_some_fetch m c hc; rfl)
  have hrjP := countP_toList_zero isPipelineTickCmd (refreshJobs m)
    (fun c hc => by obtain ⟨pid, plid, rfl⟩ := refreshJobs_some_fetch m c hc; rfl)
  have hrjJ := countP_toList_zero isJobLogTickCmd (refreshJobs m)
    (fun c hc => by obtain ⟨pid, plid, rfl⟩ := refreshJobs_some_fetch m c hc; rfl)
  have hrlP := countP_toList_zero isPipelineTickCmd (refreshJobLog m)
    (fun c hc => by obtain ⟨pid, jid, rfl⟩ := refreshJobLog_some_fetch m c hc; rfl)
  have hrlJ := countP_toList_zero isJobLogTickCmd (refreshJobLog m)
    (fun c hc => by obtain ⟨pid, jid, rfl⟩ := refreshJobLog_some_fetch m c hc; rfl)
  have hllP : ∀ (m' : MainScreen) (jid : Nat),
      (loadJobLog m' jid).toList.countP isPipelineTickCmd = 0 :=
    fun m' jid => countP_toList_zero isPipelineTickCmd (loadJobLog m' jid)
      (fun c hc => by obtain ⟨pid, rfl⟩ := loadJobLog_some_fetch m' jid c hc; rfl)
  have hllJ : ∀ (m' : MainScreen) (jid : Nat),
      (loadJobLog m' jid).toList.countP isJobLogTickCmd = 0 :=
    fun m' jid => countP_toList_zero isJobLogTickCmd (loadJobLog m' jid)
      (fun c hc => by obtain ⟨pid, rfl⟩ := loadJobLog_some_fetch m' jid c hc; rfl)
  cases msg with
  | errorMsg e => simp [update]
  | pipelinesLoaded ps =>
      constructor <;>
        simp [update, List.countP_append, hfmP, hfmJ, List.countP_cons,
          isPipelineTickCmd, isJobLogTickCmd]
  | pipelinesRefreshed ps =>
      constructor <;>
        simp [update, List.countP_append, hfmP, hfmJ, List.countP_cons,
          isPipelineTickCmd, isJobLogTickCmd]
  | pipelineTick =>
      by_cases h1 : m.contentTab = ContentTab.pipelines ∧ m.selectedProject.isSome = true ∧
          m.loading = false
      · constructor <;> simp [update, h1, hrpP, hrpJ]
      · by_cases h2 : m.selectedProject.isSome = true
        · have h3 : ¬(m.contentTab = ContentTab.pipelines ∧ m.loading = false) := by
            intro hx
            exact h1 ⟨hx.1, h2, hx.2⟩
          constructor <;>
            simp [update, h3, h2, List.countP_cons, isPipelineTickCmd, isJobLogTickCmd]
        · constructor <;> simp [update, h1, h2]
  | pipelineJobsLoaded pid js => simp [update]
  | jobsLoaded js =>
      cases js with
      | nil => simp [update]
      | cons j t => constructor <;> simp [update, hllP, hllJ]
  | jobLogLoaded log =>
      constructor <;> simp [update, List.countP_cons, isPipelineTickCmd, isJobLogTickCmd]
  | jobLogTick =>
      by_cases h1 : m.showJobLogPopup = true
      · constructor <;>
          simp [update, h1, List.countP_append, hrjP, hrjJ, hrlP, hrlJ,
            List.countP_cons, isPipelineTickCmd, isJobLogTickCmd]
      · constructor <;> simp [update, h1]
  | jobsRefreshed jobsOpt =>
      cases jobsOpt with
      | none => simp [update]
      | some js =>
          by_cases h1 : m.showJobLogPopup = true
          · constructor <;> simp [update, h1]
          · constructor <;> simp [update, h1]
  | jobLogRefreshed log =>
      by_cases h1 : log ≠ "" ∧ m.showJobLogPopup = true
      · constructor <;> simp [update, h1]
      · constructor <;> simp [update, h1]

end LazyLab
